import Mathlib

/-!
Safe-AutoDialer: a shallow embedding of `src/main.cpp`

The firmware drives the dial of a three-disk combination lock with a stepper
motor.  Its run-time data are four `uint8` globals (the dial position, the
last known position and rotation mode of each disk, the start offset of the
search) and the stepper driver.  The embedding keeps the globals in one record
and threads it through every function; `uint8` values are natural numbers and
the two places where an 8-bit counter can wrap reduce modulo `256` explicitly.
The calls made to the stepper driver are kept as a chronological log.
-/

namespace SafeAutoDialer

/-! ## Run-time data -/

/-- A three-element `uint8` array (`currentDiskPosition`, `rotationMode`). -/
structure Arr3 where
  e0 : Nat
  e1 : Nat
  e2 : Nat
deriving DecidableEq

/-- Array read `a[i]` for an index in range. -/
def Arr3.get (a : Arr3) (i : Fin 3) : Nat :=
  match i with
  | 0 => a.e0
  | 1 => a.e1
  | 2 => a.e2

/-- Array write `a[i] = v` for an index in range. -/
def Arr3.set (a : Arr3) (i : Fin 3) (v : Nat) : Arr3 :=
  match i with
  | 0 => { a with e0 := v }
  | 1 => { a with e1 := v }
  | 2 => { a with e2 := v }

/-- A call made to the stepper driver: `stepper.move(steps)` (always followed
by the blocking `stepper.runToPosition()`) or `stepper.setCurrentPosition(p)`. -/
inductive StepperCall where
  | move (steps : Int)
  | setCurrentPosition (p : Int)
deriving DecidableEq

/-- The globals of `main.cpp` together with the log of stepper calls issued so
far (oldest first). -/
structure Model where
  currentDialPosition : Nat
  currentDiskPosition : Arr3
  rotationMode : Arr3
  startOffset : Nat
  stepperLog : List StepperCall
deriving DecidableEq

/-- The value of `#define microStepsFactor`. -/
def microStepsFactor : Int := 8

/-- The state after reset: the initialisers of the four globals, and no
stepper call issued yet. -/
def boot : Model :=
  { currentDialPosition := 255
    currentDiskPosition := ⟨255, 255, 255⟩
    rotationMode := ⟨0, 0, 0⟩
    startOffset := 0
    stepperLog := [] }

/-! ## Pickup predictor -/

/-- The local `startPosition` of `willPickUpDisk`: where the part driving
`disk` starts from (the dial for disk 0, the disk below otherwise). -/
def startPosition (s : Model) (disk : Fin 3) : Nat :=
  if disk = 0 then s.currentDialPosition else s.currentDiskPosition.get (disk - 1)

/-- The local `drivingDiskRotationMode` of `willPickUpDisk`. -/
def drivingDiskRotationMode (s : Model) (disk : Fin 3) (direction : Nat) : Nat :=
  if disk = 0 then direction else s.rotationMode.get (disk - 1)

/-- The predicate `willPickUpDisk(disk, targetPosition, direction, fullRotation)`;
the C function returns the truth value of the selected branch as an `int`. -/
def willPickUpDisk (s : Model) (disk : Fin 3) (targetPosition direction fullRotation : Nat) :
    Bool :=
  if startPosition s disk < targetPosition then
    decide ((direction = 2 ∧ (s.currentDiskPosition.get disk > startPosition s disk
              ∧ s.currentDiskPosition.get disk < targetPosition))
      ∨ (direction = 1 ∧ (s.currentDiskPosition.get disk < startPosition s disk
              ∨ s.currentDiskPosition.get disk > targetPosition))
      ∨ (s.currentDiskPosition.get disk = targetPosition)
      ∨ (s.currentDiskPosition.get disk = startPosition s disk
          ∧ s.rotationMode.get disk = direction))
  else if startPosition s disk > targetPosition then
    decide ((direction = 2 ∧ (s.currentDiskPosition.get disk > startPosition s disk
              ∨ s.currentDiskPosition.get disk < targetPosition))
      ∨ (direction = 1 ∧ (s.currentDiskPosition.get disk < startPosition s disk
              ∧ s.currentDiskPosition.get disk > targetPosition))
      ∨ (s.currentDiskPosition.get disk = targetPosition)
      ∨ (s.currentDiskPosition.get disk = startPosition s disk
          ∧ s.rotationMode.get disk = direction))
  else if fullRotation = 1 then
    decide (drivingDiskRotationMode s disk direction = direction)
  else
    decide (s.rotationMode.get disk = direction)

/-! ## Rotation executor -/

/-- The block "Check which disks we will move here", identical in `rotateDial`
(called with the target position and flag `0`) and in `rotateFull` (called with
the current dial position and flag `1`): the three entries of `diskMoving`. -/
def diskMoving (s : Model) (targetPosition direction fullRotation : Nat) : Fin 3 → Bool :=
  let m0 := willPickUpDisk s 0 targetPosition direction fullRotation
  let m1 := m0 && willPickUpDisk s 1 targetPosition direction fullRotation
  let m2 := m1 && willPickUpDisk s 2 targetPosition direction fullRotation
  fun i =>
    match i with
    | 0 => m0
    | 1 => m1
    | 2 => m2

/-- The block "Save new position for moved disk" for one disk. -/
def saveDisk (moving : Bool) (i : Fin 3) (position direction : Nat) (s : Model) : Model :=
  if moving then
    { s with
      rotationMode := s.rotationMode.set i direction
      currentDiskPosition := s.currentDiskPosition.set i position }
  else s

/-- The block "Calc stepper motor movement" of `rotateDial`: four independent
`if` statements assigning the `int` variable `steps` (the `uint8` operands are
promoted to `int`, so no intermediate value wraps). -/
def rotateDialSteps (currentDialPosition position direction : Nat) : Int :=
  let steps : Int := 0
  let steps :=
    if direction = 1 ∧ currentDialPosition > position then
      ((currentDialPosition : Int) - position) * 2 * microStepsFactor
    else steps
  let steps :=
    if direction = 1 ∧ currentDialPosition < position then
      ((currentDialPosition : Int) + (100 - position)) * 2 * microStepsFactor
    else steps
  let steps :=
    if direction = 2 ∧ currentDialPosition < position then
      ((position : Int) - currentDialPosition) * (-2) * microStepsFactor
    else steps
  let steps :=
    if direction = 2 ∧ currentDialPosition > position then
      ((100 - (currentDialPosition : Int)) + position) * (-2) * microStepsFactor
    else steps
  steps

/-- The function `rotateDial(position, direction)`. -/
def rotateDial (position direction : Nat) (s : Model) : Model :=
  let moving := diskMoving s position direction 0
  let steps := rotateDialSteps s.currentDialPosition position direction
  let s := { s with stepperLog := s.stepperLog ++ [StepperCall.move steps] }
  let s := { s with currentDialPosition := position }
  let s := saveDisk (moving 0) 0 position direction s
  let s := saveDisk (moving 1) 1 position direction s
  let s := saveDisk (moving 2) 2 position direction s
  s

/-- The step count of `rotateFull`: one revolution in the given sense. -/
def rotateFullSteps (direction : Nat) : Int :=
  if direction = 1 then 200 * microStepsFactor else (-200) * microStepsFactor

/-- The function `rotateFull(direction)`. -/
def rotateFull (direction : Nat) (s : Model) : Model :=
  let moving := diskMoving s s.currentDialPosition direction 1
  let steps := rotateFullSteps direction
  let s := { s with stepperLog := s.stepperLog ++ [StepperCall.move steps] }
  let s := saveDisk (moving 0) 0 s.currentDialPosition direction s
  let s := saveDisk (moving 1) 1 s.currentDialPosition direction s
  let s := saveDisk (moving 2) 2 s.currentDialPosition direction s
  s

/-! ## Disk setters and combination dialer -/

/-- The alignment loop `while (!cond) { rotateFull(direction); }` of the
setters.  The source loop has no bound; here `fuel` is the number of full
rotations the loop may issue, and running out of it gives `none`. -/
def whileNotAligned (cond : Model → Bool) (direction : Nat) : Nat → Model → Option Model
  | 0, s => if cond s then some s else none
  | fuel + 1, s =>
    if cond s then some s else whileNotAligned cond direction fuel (rotateFull direction s)

/-- The loop condition of `setDisk2`. -/
def aligned2 (position : Nat) (s : Model) : Bool :=
  willPickUpDisk s 0 position 2 0 && willPickUpDisk s 1 position 2 0
    && willPickUpDisk s 2 position 2 0

/-- The loop condition of `setDisk1`. -/
def aligned1 (position : Nat) (s : Model) : Bool :=
  willPickUpDisk s 0 position 1 0 && willPickUpDisk s 1 position 1 0

/-- The loop condition of `setDisk0`. -/
def aligned0 (position : Nat) (s : Model) : Bool :=
  willPickUpDisk s 0 position 2 0

/-- The function `setDisk2(position)`. -/
def setDisk2 (fuel : Nat) (position : Nat) (s : Model) : Option Model :=
  if s.currentDiskPosition.get 2 ≠ position ∨ s.rotationMode.get 0 ≠ 2 then
    (whileNotAligned (aligned2 position) 2 fuel s).map (rotateDial position 2)
  else some s

/-- The function `setDisk1(position)`. -/
def setDisk1 (fuel : Nat) (position : Nat) (s : Model) : Option Model :=
  if s.currentDiskPosition.get 1 ≠ position ∨ s.rotationMode.get 1 ≠ 1 then
    (whileNotAligned (aligned1 position) 1 fuel s).map (rotateDial position 1)
  else some s

/-- The function `setDisk0(position)`. -/
def setDisk0 (fuel : Nat) (position : Nat) (s : Model) : Option Model :=
  if s.currentDiskPosition.get 0 ≠ position ∨ s.rotationMode.get 0 ≠ 2 then
    (whileNotAligned (aligned0 position) 2 fuel s).map (rotateDial position 2)
  else some s

/-- The function `dialCombination(disk2, disk1, disk0)`. -/
def dialCombination (fuel : Nat) (disk2 disk1 disk0 : Nat) (s : Model) : Option Model :=
  ((setDisk2 fuel disk2 s).bind (setDisk1 fuel disk1)).bind (setDisk0 fuel disk0)

/-! ## Opening probe -/

/-- The function `testOpen()`; the second target is computed from the dial
position the first rotation has stored. -/
def testOpen (s : Model) : Model :=
  let s := rotateDial ((s.currentDialPosition + 5) % 100) 1 s
  rotateDial ((s.currentDialPosition + 95) % 100) 2 s

/-! ## Console loop and search driver -/

/-- A loop `for (uint8 v = init; v < 100; v = next v) body(v)`.  The counter
is passed as its current value `v`; `fuel` bounds the number of times the loop
condition is evaluated, and running out of it gives `none`. -/
def forLoop {σ : Type} (next : Nat → Nat) (body : Nat → σ → Option σ) :
    Nat → Nat → σ → Option σ
  | 0, _, _ => none
  | fuel + 1, v, st =>
    if v < 100 then (body v st).bind (forLoop next body fuel (next v)) else some st

/-- The update `k += 2` (and `i += 2`) of a `uint8` counter. -/
def plusTwo (v : Nat) : Nat := (v + 2) % 256

/-- The update `j -= 2` of a `uint8` counter: below `2` it wraps around. -/
def minusTwo (v : Nat) : Nat := (v + 256 - 2) % 256

/-- The three nested loops of the `s` command, over an arbitrary loop body
`body k j i`. -/
def searchLoops {σ : Type} (fuel : Nat) (body : Nat → Nat → Nat → σ → Option σ)
    (startOffset : Nat) (st : σ) : Option σ :=
  forLoop plusTwo
    (fun k => forLoop minusTwo
      (fun j => forLoop plusTwo (fun i => body k j i) fuel 0) fuel 98)
    fuel startOffset st

/-- The body of the innermost search loop: `dialCombination(k, j, i); testOpen();`. -/
def tryCombination (fuel : Nat) (k j i : Nat) (s : Model) : Option Model :=
  (dialCombination fuel k j i s).map testOpen

/-- The body of the innermost search loop with the state replaced by the list
of argument triples handed to `dialCombination` so far. -/
def recordCandidate (k j i : Nat) (seen : List (Nat × Nat × Nat)) :
    Option (List (Nat × Nat × Nat)) :=
  some (seen ++ [(k, j, i)])

/-- The sequence of candidates the search started with offset `startOffset`
hands to `dialCombination`. -/
def searchCandidates (fuel : Nat) (startOffset : Nat) : Option (List (Nat × Nat × Nat)) :=
  searchLoops fuel recordCandidate startOffset []

/-- One pass through `loop()` with the character `input` read from the serial
line.  A character that is no command changes nothing. -/
def loop (fuel : Nat) (input : Char) (s : Model) : Option Model :=
  if input = '1' then some (rotateFull 2 s)
  else if input = '2' then some (rotateFull 1 s)
  else if input = '3' then some (rotateDial ((s.currentDialPosition + 25) % 100) 2 s)
  else if input = '4' then some (rotateDial ((s.currentDialPosition + 75) % 100) 1 s)
  else if input = '5' then some (rotateDial ((s.currentDialPosition + 1) % 100) 2 s)
  else if input = '6' then some (rotateDial ((s.currentDialPosition + 99) % 100) 1 s)
  else if input = 'p' then some (rotateFull 2 (rotateFull 2 (rotateFull 2 s)))
  else if input = '0' then
    some { s with
      stepperLog := s.stepperLog ++ [StepperCall.setCurrentPosition 0]
      currentDialPosition := 0 }
  else if input = '+' then some { s with startOffset := (s.startOffset + 1) % 256 }
  else if input = 'o' then some (testOpen s)
  else if input = 's' then searchLoops fuel (tryCombination fuel) s.startOffset s
  else some s

/-- The states the firmware can be in between two passes through `loop()`,
starting from `s0`: each step reads one character and runs its command to
completion. -/
inductive ReachableFrom (s0 : Model) : Model → Prop where
  | start : ReachableFrom s0 s0
  | step (fuel : Nat) (input : Char) (s s' : Model) :
      ReachableFrom s0 s → loop fuel input s = some s' → ReachableFrom s0 s'

/-- The Arduino runtime calls `loop()` again and again; `runCommands` makes
one pass for each character of `inputs`, in order. -/
def runCommands (fuel : Nat) : List Char → Model → Option Model
  | [], s => some s
  | input :: inputs, s => (loop fuel input s).bind (runCommands fuel inputs)

/-! ## The search order as the specification words it -/

/-- The disk-2 candidates for start offset `s`: `s`, `s + 2`, `s + 4`, ... as
long as the value is below 100. -/
def disk2Candidates (s : Nat) : List Nat :=
  (List.range ((101 - s) / 2)).map (fun n => s + 2 * n)

/-- The disk-1 candidates: 98, 96, ..., 0. -/
def disk1Candidates : List Nat :=
  (List.range 50).map (fun n => 98 - 2 * n)

/-- The disk-0 candidates: 0, 2, ..., 98. -/
def disk0Candidates : List Nat :=
  (List.range 50).map (fun n => 2 * n)

/-- All triples `(k, j, i)`, with `k` outermost, `j` in the middle and `i`
innermost. -/
def specCandidates (s : Nat) : List (Nat × Nat × Nat) :=
  (disk2Candidates s).flatMap (fun k =>
    disk1Candidates.flatMap (fun j => disk0Candidates.map (fun i => (k, j, i))))

/-! ## The motor behind the stepper log -/

/-- Modelled from the spec: the stepper driver is the external AccelStepper
library, of which the repository only holds the calls.  Its absolute position
after a log of calls is the running sum of the relative step counts passed to
`move` (each completed by the blocking `runToPosition`), restarted at `p` by
`setCurrentPosition p`. -/
def motorPosition (log : List StepperCall) : Int :=
  log.foldl
    (fun position call =>
      match call with
      | StepperCall.move steps => position + steps
      | StepperCall.setCurrentPosition p => p)
    0

/-- The states reached from `s0` by calls of `rotateDial` with a target below
100 and of `rotateFull`, each in direction 1 or 2. -/
inductive RotationsFrom (s0 : Model) : Model → Prop where
  | start : RotationsFrom s0 s0
  | dial (p d : Nat) (s : Model) :
      RotationsFrom s0 s → p < 100 → (d = 1 ∨ d = 2) → RotationsFrom s0 (rotateDial p d s)
  | full (d : Nat) (s : Model) :
      RotationsFrom s0 s → (d = 1 ∨ d = 2) → RotationsFrom s0 (rotateFull d s)

/-! ## The targets handed to `rotateDial`

The functions that call `rotateDial`, once more, on a state paired with the
list of target positions passed to `rotateDial` so far (oldest first).  Each
is the function above with every call of `rotateDial` recorded; `rotateFull`
and the alignment loops make no such call and leave the list alone. -/

/-- The function `rotateDial`, recording its target. -/
def rotateDialTraced (position direction : Nat) (st : Model × List Nat) : Model × List Nat :=
  (rotateDial position direction st.1, st.2 ++ [position])

/-- The function `setDisk2`, recording the targets of `rotateDial`. -/
def setDisk2Traced (fuel position : Nat) (st : Model × List Nat) :
    Option (Model × List Nat) :=
  if st.1.currentDiskPosition.get 2 ≠ position ∨ st.1.rotationMode.get 0 ≠ 2 then
    (whileNotAligned (aligned2 position) 2 fuel st.1).map
      (fun t => rotateDialTraced position 2 (t, st.2))
  else some st

/-- The function `setDisk1`, recording the targets of `rotateDial`. -/
def setDisk1Traced (fuel position : Nat) (st : Model × List Nat) :
    Option (Model × List Nat) :=
  if st.1.currentDiskPosition.get 1 ≠ position ∨ st.1.rotationMode.get 1 ≠ 1 then
    (whileNotAligned (aligned1 position) 1 fuel st.1).map
      (fun t => rotateDialTraced position 1 (t, st.2))
  else some st

/-- The function `setDisk0`, recording the targets of `rotateDial`. -/
def setDisk0Traced (fuel position : Nat) (st : Model × List Nat) :
    Option (Model × List Nat) :=
  if st.1.currentDiskPosition.get 0 ≠ position ∨ st.1.rotationMode.get 0 ≠ 2 then
    (whileNotAligned (aligned0 position) 2 fuel st.1).map
      (fun t => rotateDialTraced position 2 (t, st.2))
  else some st

/-- The function `dialCombination`, recording the targets of `rotateDial`. -/
def dialCombinationTraced (fuel : Nat) (disk2 disk1 disk0 : Nat) (st : Model × List Nat) :
    Option (Model × List Nat) :=
  ((setDisk2Traced fuel disk2 st).bind (setDisk1Traced fuel disk1)).bind
    (setDisk0Traced fuel disk0)

/-- The function `testOpen`, recording the targets of `rotateDial`. -/
def testOpenTraced (st : Model × List Nat) : Model × List Nat :=
  let st := rotateDialTraced ((st.1.currentDialPosition + 5) % 100) 1 st
  rotateDialTraced ((st.1.currentDialPosition + 95) % 100) 2 st

/-- The body of the innermost search loop, recording the targets of `rotateDial`. -/
def tryCombinationTraced (fuel : Nat) (k j i : Nat) (st : Model × List Nat) :
    Option (Model × List Nat) :=
  (dialCombinationTraced fuel k j i st).map testOpenTraced

/-- One pass through `loop()`, recording the targets of `rotateDial`. -/
def loopTraced (fuel : Nat) (input : Char) (st : Model × List Nat) :
    Option (Model × List Nat) :=
  if input = '1' then some (rotateFull 2 st.1, st.2)
  else if input = '2' then some (rotateFull 1 st.1, st.2)
  else if input = '3' then
    some (rotateDialTraced ((st.1.currentDialPosition + 25) % 100) 2 st)
  else if input = '4' then
    some (rotateDialTraced ((st.1.currentDialPosition + 75) % 100) 1 st)
  else if input = '5' then
    some (rotateDialTraced ((st.1.currentDialPosition + 1) % 100) 2 st)
  else if input = '6' then
    some (rotateDialTraced ((st.1.currentDialPosition + 99) % 100) 1 st)
  else if input = 'p' then some (rotateFull 2 (rotateFull 2 (rotateFull 2 st.1)), st.2)
  else if input = '0' then
    some ({ st.1 with
      stepperLog := st.1.stepperLog ++ [StepperCall.setCurrentPosition 0]
      currentDialPosition := 0 }, st.2)
  else if input = '+' then
    some ({ st.1 with startOffset := (st.1.startOffset + 1) % 256 }, st.2)
  else if input = 'o' then some (testOpenTraced st)
  else if input = 's' then searchLoops fuel (tryCombinationTraced fuel) st.1.startOffset st
  else some st

/-- One pass through `loop()` for each character of `inputs`, recording the
targets of `rotateDial`. -/
def runCommandsTraced (fuel : Nat) : List Char → Model × List Nat → Option (Model × List Nat)
  | [], st => some st
  | input :: inputs, st => (loopTraced fuel input st).bind (runCommandsTraced fuel inputs)

/-! ## Theorems -/

/-- The stepper log after `saveDisk` is the log before. -/
theorem saveDisk_stepperLog (m : Bool) (i : Fin 3) (p d : Nat) (s : Model) :
    (saveDisk m i p d s).stepperLog = s.stepperLog := by
  unfold saveDisk
  split <;> rfl

/-- The dial position after `saveDisk` is the one before. -/
theorem saveDisk_dial (m : Bool) (i : Fin 3) (p d : Nat) (s : Model) :
    (saveDisk m i p d s).currentDialPosition = s.currentDialPosition := by
  unfold saveDisk
  split <;> rfl

/-- Closed form of `rotateFull`. -/
theorem rotateFull_eq (d : Nat) (s : Model) :
    rotateFull d s =
      { currentDialPosition := s.currentDialPosition
        currentDiskPosition :=
          ⟨if diskMoving s s.currentDialPosition d 1 0 then s.currentDialPosition
            else s.currentDiskPosition.e0,
           if diskMoving s s.currentDialPosition d 1 1 then s.currentDialPosition
            else s.currentDiskPosition.e1,
           if diskMoving s s.currentDialPosition d 1 2 then s.currentDialPosition
            else s.currentDiskPosition.e2⟩
        rotationMode :=
          ⟨if diskMoving s s.currentDialPosition d 1 0 then d else s.rotationMode.e0,
           if diskMoving s s.currentDialPosition d 1 1 then d else s.rotationMode.e1,
           if diskMoving s s.currentDialPosition d 1 2 then d else s.rotationMode.e2⟩
        startOffset := s.startOffset
        stepperLog := s.stepperLog ++ [StepperCall.move (rotateFullSteps d)] } := by
  simp only [rotateFull, saveDisk]
  cases diskMoving s s.currentDialPosition d 1 0 <;>
    cases diskMoving s s.currentDialPosition d 1 1 <;>
    cases diskMoving s s.currentDialPosition d 1 2 <;> rfl

/-- Closed form of `rotateDial`. -/
theorem rotateDial_eq (p d : Nat) (s : Model) :
    rotateDial p d s =
      { currentDialPosition := p
        currentDiskPosition :=
          ⟨if diskMoving s p d 0 0 then p else s.currentDiskPosition.e0,
           if diskMoving s p d 0 1 then p else s.currentDiskPosition.e1,
           if diskMoving s p d 0 2 then p else s.currentDiskPosition.e2⟩
        rotationMode :=
          ⟨if diskMoving s p d 0 0 then d else s.rotationMode.e0,
           if diskMoving s p d 0 1 then d else s.rotationMode.e1,
           if diskMoving s p d 0 2 then d else s.rotationMode.e2⟩
        startOffset := s.startOffset
        stepperLog :=
          s.stepperLog ++ [StepperCall.move (rotateDialSteps s.currentDialPosition p d)] } := by
  simp only [rotateDial, saveDisk]
  cases diskMoving s p d 0 0 <;> cases diskMoving s p d 0 1 <;>
    cases diskMoving s p d 0 2 <;> rfl


/-- The entries of `diskMoving` in terms of the predictor. -/
theorem diskMoving_zero (s : Model) (t d f : Nat) :
    diskMoving s t d f 0 = willPickUpDisk s 0 t d f := rfl

theorem diskMoving_one (s : Model) (t d f : Nat) :
    diskMoving s t d f 1 = (willPickUpDisk s 0 t d f && willPickUpDisk s 1 t d f) := rfl

theorem diskMoving_two (s : Model) (t d f : Nat) :
    diskMoving s t d f 2 =
      ((willPickUpDisk s 0 t d f && willPickUpDisk s 1 t d f) && willPickUpDisk s 2 t d f) := rfl

/-- A full rotation always moves disk 0. -/
theorem willPickUpDisk_full_zero (s : Model) (d : Nat) :
    willPickUpDisk s 0 s.currentDialPosition d 1 = true := by
  simp [willPickUpDisk, startPosition, drivingDiskRotationMode]

/-- A full rotation moves disk 1 once disk 0 rides with the dial in that sense. -/
theorem willPickUpDisk_full_one (s : Model) (d : Nat)
    (hp : s.currentDiskPosition.e0 = s.currentDialPosition) (hm : s.rotationMode.e0 = d) :
    willPickUpDisk s 1 s.currentDialPosition d 1 = true := by
  simp [willPickUpDisk, startPosition, drivingDiskRotationMode, Arr3.get, hp, hm]

/-- A full rotation moves disk 2 once disk 1 rides with the dial in that sense. -/
theorem willPickUpDisk_full_two (s : Model) (d : Nat)
    (hp : s.currentDiskPosition.e1 = s.currentDialPosition) (hm : s.rotationMode.e1 = d) :
    willPickUpDisk s 2 s.currentDialPosition d 1 = true := by
  simp [willPickUpDisk, startPosition, drivingDiskRotationMode, Arr3.get, hp, hm]

/-- Extensionality for three-element arrays. -/
theorem Arr3.eq_mk (a : Arr3) (x y z : Nat) (h0 : a.e0 = x) (h1 : a.e1 = y) (h2 : a.e2 = z) :
    a = ⟨x, y, z⟩ := by
  cases a
  simp_all

/-- A full rotation keeps the dial position and leaves disk 0 at the dial
position with the sense of the rotation. -/
theorem rotateFull_disk0 (d : Nat) (s : Model) :
    (rotateFull d s).currentDialPosition = s.currentDialPosition
    ∧ (rotateFull d s).currentDiskPosition.e0 = s.currentDialPosition
    ∧ (rotateFull d s).rotationMode.e0 = d := by
  rw [rotateFull_eq]
  simp [diskMoving_zero, willPickUpDisk_full_zero]

/-- A full rotation from a state where disk 0 rides with the dial leaves disk 1
at the dial position with the sense of the rotation. -/
theorem rotateFull_disk1 (d : Nat) (s : Model)
    (hp : s.currentDiskPosition.e0 = s.currentDialPosition) (hm : s.rotationMode.e0 = d) :
    (rotateFull d s).currentDiskPosition.e1 = s.currentDialPosition
    ∧ (rotateFull d s).rotationMode.e1 = d := by
  rw [rotateFull_eq]
  simp [diskMoving_one, willPickUpDisk_full_zero, willPickUpDisk_full_one s d hp hm]

/-- A full rotation from a state where disks 0 and 1 ride with the dial leaves
disk 2 at the dial position with the sense of the rotation. -/
theorem rotateFull_disk2 (d : Nat) (s : Model)
    (hp : s.currentDiskPosition.e0 = s.currentDialPosition) (hm : s.rotationMode.e0 = d)
    (hp1 : s.currentDiskPosition.e1 = s.currentDialPosition) (hm1 : s.rotationMode.e1 = d) :
    (rotateFull d s).currentDiskPosition.e2 = s.currentDialPosition
    ∧ (rotateFull d s).rotationMode.e2 = d := by
  rw [rotateFull_eq]
  simp [diskMoving_two, willPickUpDisk_full_zero, willPickUpDisk_full_one s d hp hm,
    willPickUpDisk_full_two s d hp1 hm1]

/-- Three full rotations in one sense leave every disk at the dial position
with that sense. -/
theorem rotateFull_thrice (d : Nat) (s : Model) :
    (rotateFull d (rotateFull d (rotateFull d s))).currentDialPosition = s.currentDialPosition
    ∧ (rotateFull d (rotateFull d (rotateFull d s))).currentDiskPosition
        = ⟨s.currentDialPosition, s.currentDialPosition, s.currentDialPosition⟩
    ∧ (rotateFull d (rotateFull d (rotateFull d s))).rotationMode = ⟨d, d, d⟩ := by
  obtain ⟨a1, b1, c1⟩ := rotateFull_disk0 d s
  obtain ⟨a2, b2, c2⟩ := rotateFull_disk0 d (rotateFull d s)
  obtain ⟨a3, b3, c3⟩ := rotateFull_disk0 d (rotateFull d (rotateFull d s))
  obtain ⟨d2, e2⟩ := rotateFull_disk1 d (rotateFull d s) (by rw [b1, a1]) c1
  obtain ⟨d3, e3⟩ := rotateFull_disk1 d (rotateFull d (rotateFull d s)) (by rw [b2, a2]) c2
  obtain ⟨f3, g3⟩ := rotateFull_disk2 d (rotateFull d (rotateFull d s)) (by rw [b2, a2]) c2
    (by rw [d2, a2]) e2
  refine ⟨by rw [a3, a2, a1], ?_, ?_⟩
  · apply Arr3.eq_mk
    · rw [b3, a2, a1]
    · rw [d3, a2, a1]
    · rw [f3, a2, a1]
  · exact Arr3.eq_mk _ _ _ _ c3 e3 g3

/-- In a state where every disk rides with the dial in sense `d`, the predictor
confirms the pickup of every disk for a direct rotation in sense `d`. -/
theorem willPickUpDisk_of_riding (s : Model) (d position : Nat) (disk : Fin 3)
    (hp : s.currentDiskPosition
      = ⟨s.currentDialPosition, s.currentDialPosition, s.currentDialPosition⟩)
    (hm : s.rotationMode = ⟨d, d, d⟩) :
    willPickUpDisk s disk position d 0 = true := by
  fin_cases disk <;>
    simp [willPickUpDisk, startPosition, drivingDiskRotationMode, Arr3.get, hp, hm]

/-- The alignment loop stops at the first state satisfying its condition: if
the condition holds after `n` full rotations and the fuel allows `n`, the loop
returns after at most `n` of them, in a state satisfying the condition. -/
theorem whileNotAligned_of_iterate (cond : Model → Bool) (d : Nat) :
    ∀ (n fuel : Nat) (s : Model), n ≤ fuel → cond ((rotateFull d)^[n] s) = true →
      ∃ m, m ≤ n ∧ whileNotAligned cond d fuel s = some ((rotateFull d)^[m] s)
        ∧ cond ((rotateFull d)^[m] s) = true := by
  intro n
  induction n with
  | zero =>
    intro fuel s _ h
    refine ⟨0, le_refl 0, ?_, h⟩
    simp only [Function.iterate_zero, id_eq] at h
    cases fuel <;> simp [whileNotAligned, h]
  | succ n ih =>
    intro fuel s hle h
    by_cases hc : cond s = true
    · refine ⟨0, Nat.zero_le _, ?_, hc⟩
      cases fuel <;> simp [whileNotAligned, hc]
    · cases fuel with
      | zero => omega
      | succ fuel =>
        rw [Function.iterate_succ_apply] at h
        obtain ⟨m, hm, hrun, hcond⟩ := ih fuel (rotateFull d s) (by omega) h
        refine ⟨m + 1, by omega, ?_, ?_⟩
        · simp only [whileNotAligned, hc, Function.iterate_succ_apply]
          simpa using hrun
        · rw [Function.iterate_succ_apply]
          exact hcond

/-- With fuel for three full rotations the alignment loop of a setter working
in sense `d` returns, whatever the state, provided its condition is a
conjunction of predictor calls for sense `d`. -/
theorem whileNotAligned_returns (cond : Model → Bool) (d : Nat) (fuel : Nat) (s : Model)
    (hcond : ∀ t : Model,
      t.currentDiskPosition
          = ⟨t.currentDialPosition, t.currentDialPosition, t.currentDialPosition⟩ →
      t.rotationMode = ⟨d, d, d⟩ → cond t = true) :
    ∃ m, m ≤ 3 ∧ whileNotAligned cond d (3 + fuel) s = some ((rotateFull d)^[m] s)
      ∧ cond ((rotateFull d)^[m] s) = true := by
  apply whileNotAligned_of_iterate cond d 3 (3 + fuel) s (by omega)
  obtain ⟨h1, h2, h3⟩ := rotateFull_thrice d s
  apply hcond
  · simp only [Function.iterate_succ_apply, Function.iterate_zero, id_eq]
    rw [h2, h1]
  · simpa [Function.iterate_succ_apply] using h3

theorem aligned2_of_riding (position : Nat) (t : Model)
    (hp : t.currentDiskPosition
      = ⟨t.currentDialPosition, t.currentDialPosition, t.currentDialPosition⟩)
    (hm : t.rotationMode = ⟨2, 2, 2⟩) : aligned2 position t = true := by
  simp [aligned2, willPickUpDisk_of_riding t 2 position _ hp hm]

theorem aligned1_of_riding (position : Nat) (t : Model)
    (hp : t.currentDiskPosition
      = ⟨t.currentDialPosition, t.currentDialPosition, t.currentDialPosition⟩)
    (hm : t.rotationMode = ⟨1, 1, 1⟩) : aligned1 position t = true := by
  simp [aligned1, willPickUpDisk_of_riding t 1 position _ hp hm]

theorem aligned0_of_riding (position : Nat) (t : Model)
    (hp : t.currentDiskPosition
      = ⟨t.currentDialPosition, t.currentDialPosition, t.currentDialPosition⟩)
    (hm : t.rotationMode = ⟨2, 2, 2⟩) : aligned0 position t = true := by
  simp [aligned0, willPickUpDisk_of_riding t 2 position _ hp hm]

/-- C2: from every state and for every target position, the alignment loop of
each setter, allowed at least 100 full rotations, stops after at most 100 of
them (three suffice) in a state where the predictor confirms the pickup of
every disk the setter requires; hence each setter returns. -/
theorem setter_alignment_terminates (s : Model) (position extra : Nat) :
    (∃ m, m ≤ 100
        ∧ whileNotAligned (aligned2 position) 2 (100 + extra) s = some ((rotateFull 2)^[m] s)
        ∧ aligned2 position ((rotateFull 2)^[m] s) = true)
    ∧ (∃ m, m ≤ 100
        ∧ whileNotAligned (aligned1 position) 1 (100 + extra) s = some ((rotateFull 1)^[m] s)
        ∧ aligned1 position ((rotateFull 1)^[m] s) = true)
    ∧ (∃ m, m ≤ 100
        ∧ whileNotAligned (aligned0 position) 2 (100 + extra) s = some ((rotateFull 2)^[m] s)
        ∧ aligned0 position ((rotateFull 2)^[m] s) = true)
    ∧ (setDisk2 (100 + extra) position s).isSome = true
    ∧ (setDisk1 (100 + extra) position s).isSome = true
    ∧ (setDisk0 (100 + extra) position s).isSome = true := by
  have hf : 100 + extra = 3 + (97 + extra) := by omega
  obtain ⟨m2, hm2, hr2, hc2⟩ := whileNotAligned_returns (aligned2 position) 2 (97 + extra) s
    (aligned2_of_riding position)
  obtain ⟨m1, hm1, hr1, hc1⟩ := whileNotAligned_returns (aligned1 position) 1 (97 + extra) s
    (aligned1_of_riding position)
  obtain ⟨m0, hm0, hr0, hc0⟩ := whileNotAligned_returns (aligned0 position) 2 (97 + extra) s
    (aligned0_of_riding position)
  rw [hf]
  refine ⟨⟨m2, by omega, hr2, hc2⟩, ⟨m1, by omega, hr1, hc1⟩, ⟨m0, by omega, hr0, hc0⟩,
    ?_, ?_, ?_⟩
  · unfold setDisk2
    split
    · rw [hr2]; rfl
    · rfl
  · unfold setDisk1
    split
    · rw [hr1]; rfl
    · rfl
  · unfold setDisk0
    split
    · rw [hr0]; rfl
    · rfl

/-- C3 (counterexample): with the dial and all disks at 10, every disk last
moved clockwise, disk 1 rests exactly at the target 10, yet the predictor denies
its pickup for a counter-clockwise full rotation, and the pickup of disk 0 for
a counter-clockwise rotation to 10. -/
theorem pickup_symmetry_counterexample :
    (Model.mk 10 ⟨10, 10, 10⟩ ⟨1, 1, 1⟩ 0 []).currentDiskPosition.get 1 = 10
    ∧ willPickUpDisk (Model.mk 10 ⟨10, 10, 10⟩ ⟨1, 1, 1⟩ 0 []) 1 10 2 1 = false
    ∧ (Model.mk 10 ⟨10, 10, 10⟩ ⟨1, 1, 1⟩ 0 []).currentDiskPosition.get 0 = 10
    ∧ willPickUpDisk (Model.mk 10 ⟨10, 10, 10⟩ ⟨1, 1, 1⟩ 0 []) 0 10 2 0 = false := by
  decide

/-- C3 (amended): for a disk resting exactly at the target position the
predictor returns true if and only if the driving start position differs from
the target, or it equals the target and the direction test of the selected
branch succeeds (the driving rotation mode equals the direction when the
full-rotation flag is 1, the disk's own rotation mode equals the direction
otherwise). -/
theorem willPickUpDisk_at_target (s : Model) (disk : Fin 3)
    (targetPosition direction fullRotation : Nat)
    (h : s.currentDiskPosition.get disk = targetPosition) :
    willPickUpDisk s disk targetPosition direction fullRotation = true ↔
      (startPosition s disk ≠ targetPosition
        ∨ (fullRotation = 1 ∧ drivingDiskRotationMode s disk direction = direction)
        ∨ (fullRotation ≠ 1 ∧ s.rotationMode.get disk = direction)) := by
  unfold willPickUpDisk
  split
  · simp [h]; omega
  · split
    · simp [h]; omega
    · have : startPosition s disk = targetPosition := by omega
      split <;> simp_all

/-- Witness for the amended C3: disk 0 rests at 10, the dial is at 0, and a
counter-clockwise rotation to 10 picks the disk up although it was last moved
clockwise. -/
theorem willPickUpDisk_at_target_witness :
    willPickUpDisk (Model.mk 0 ⟨10, 255, 255⟩ ⟨1, 0, 0⟩ 0 []) 0 10 2 0 = true :=
  (willPickUpDisk_at_target (Model.mk 0 ⟨10, 255, 255⟩ ⟨1, 0, 0⟩ 0 []) 0 10 2 0 rfl).mpr
    (Or.inl (by decide))

/-- C7: with the dial at `cur` and a target `t`, both below 100, a clockwise
`rotateDial` commands `((cur - t) mod 100) * 2 * 8` steps and a counter-clockwise
one `-((t - cur) mod 100) * 2 * 8` steps, each as the one stepper move of the
call; a target equal to the dial position commands 0 steps, and clockwise from
10 to 95 commands `(10 + (100 - 95)) * 16 = 240` steps. -/
theorem rotateDial_step_count (s : Model) (t : Nat)
    (hc : s.currentDialPosition < 100) (ht : t < 100) :
    (rotateDial t 1 s).stepperLog
        = s.stepperLog
          ++ [StepperCall.move ((((s.currentDialPosition : Int) - t) % 100) * 2 * 8)]
    ∧ (rotateDial t 2 s).stepperLog
        = s.stepperLog
          ++ [StepperCall.move (-((((t : Int) - s.currentDialPosition) % 100) * 2 * 8))]
    ∧ rotateDialSteps t t 1 = 0 ∧ rotateDialSteps t t 2 = 0
    ∧ rotateDialSteps 10 95 1 = (10 + (100 - 95)) * 16 ∧ rotateDialSteps 10 95 1 = 240 := by
  refine ⟨?_, ?_, ?_, ?_, by decide, by decide⟩
  · rw [rotateDial_eq]
    simp only [rotateDialSteps, microStepsFactor]
    congr 3
    rcases Nat.lt_trichotomy s.currentDialPosition t with h | h | h
    · simp [h, Nat.lt_asymm h]; omega
    · simp [h]
    · simp [h, Nat.lt_asymm h]; omega
  · rw [rotateDial_eq]
    simp only [rotateDialSteps, microStepsFactor]
    congr 3
    rcases Nat.lt_trichotomy s.currentDialPosition t with h | h | h
    · simp [h, Nat.lt_asymm h]; omega
    · simp [h]
    · simp [h, Nat.lt_asymm h]; omega
  · simp [rotateDialSteps]
  · simp [rotateDialSteps]

/-- Witness for C7: from the dial at 10, the clockwise rotation to 95 commands
240 steps and the counter-clockwise one -1360. -/
theorem rotateDial_step_count_witness :
    (rotateDial 95 1 (Model.mk 10 ⟨255, 255, 255⟩ ⟨0, 0, 0⟩ 0 [])).stepperLog
      = [StepperCall.move 240]
    ∧ (rotateDial 95 2 (Model.mk 10 ⟨255, 255, 255⟩ ⟨0, 0, 0⟩ 0 [])).stepperLog
      = [StepperCall.move (-1360)] := by
  have h := rotateDial_step_count (Model.mk 10 ⟨255, 255, 255⟩ ⟨0, 0, 0⟩ 0 []) 95
    (by decide) (by decide)
  exact ⟨h.1, h.2.1⟩

/-- C8: `rotateFull d` keeps the dial's recorded position; every disk it flags
as moving gets that position and direction `d`; every other disk keeps its
position and direction. -/
theorem rotateFull_frame (d : Nat) (s : Model) (i : Fin 3) :
    (rotateFull d s).currentDialPosition = s.currentDialPosition
    ∧ (rotateFull d s).currentDiskPosition.get i
        = (if diskMoving s s.currentDialPosition d 1 i = true then s.currentDialPosition
            else s.currentDiskPosition.get i)
    ∧ (rotateFull d s).rotationMode.get i
        = (if diskMoving s s.currentDialPosition d 1 i = true then d
            else s.rotationMode.get i) := by
  rw [rotateFull_eq]
  fin_cases i <;> simp [Arr3.get]

/-- C10: from every state, the three counter-clockwise full rotations of the
`p` command leave the dial position unchanged and all three disks recorded at
that position with last direction counter-clockwise. -/
theorem pickUpAll_picks_up_all (fuel : Nat) (s : Model) :
    loop fuel 'p' s = some (rotateFull 2 (rotateFull 2 (rotateFull 2 s)))
    ∧ (rotateFull 2 (rotateFull 2 (rotateFull 2 s))).currentDialPosition
        = s.currentDialPosition
    ∧ (∀ i : Fin 3,
        (rotateFull 2 (rotateFull 2 (rotateFull 2 s))).currentDiskPosition.get i
          = s.currentDialPosition
        ∧ (rotateFull 2 (rotateFull 2 (rotateFull 2 s))).rotationMode.get i = 2) := by
  obtain ⟨h1, h2, h3⟩ := rotateFull_thrice 2 s
  refine ⟨by simp [loop], h1, ?_⟩
  intro i
  rw [h2, h3]
  fin_cases i <;> simp [Arr3.get]

/-- The predictor as one decidable proposition over the three cases of the
comparison between the driving start position and the target. -/
theorem willPickUpDisk_eq_decide (s : Model) (disk : Fin 3) (t d f : Nat) :
    willPickUpDisk s disk t d f
      = decide ((startPosition s disk < t
          ∧ ((d = 2 ∧ (s.currentDiskPosition.get disk > startPosition s disk
                ∧ s.currentDiskPosition.get disk < t))
            ∨ (d = 1 ∧ (s.currentDiskPosition.get disk < startPosition s disk
                ∨ s.currentDiskPosition.get disk > t))
            ∨ s.currentDiskPosition.get disk = t
            ∨ (s.currentDiskPosition.get disk = startPosition s disk
                ∧ s.rotationMode.get disk = d)))
        ∨ (t < startPosition s disk
          ∧ ((d = 2 ∧ (s.currentDiskPosition.get disk > startPosition s disk
                ∨ s.currentDiskPosition.get disk < t))
            ∨ (d = 1 ∧ (s.currentDiskPosition.get disk < startPosition s disk
                ∧ s.currentDiskPosition.get disk > t))
            ∨ s.currentDiskPosition.get disk = t
            ∨ (s.currentDiskPosition.get disk = startPosition s disk
                ∧ s.rotationMode.get disk = d)))
        ∨ (startPosition s disk = t
          ∧ ((f = 1 ∧ drivingDiskRotationMode s disk d = d)
            ∨ (f ≠ 1 ∧ s.rotationMode.get disk = d)))) := by
  unfold willPickUpDisk
  rcases Nat.lt_trichotomy (startPosition s disk) t with h | h | h
  · simp [h, Nat.lt_asymm h, Nat.ne_of_lt h]
  · by_cases hf : f = 1 <;> simp [h, hf]
  · simp [h, Nat.lt_asymm h, Nat.ne_of_gt h]

theorem startPosition_zero (s : Model) : startPosition s 0 = s.currentDialPosition := rfl

theorem startPosition_one (s : Model) : startPosition s 1 = s.currentDiskPosition.e0 := rfl

theorem startPosition_two (s : Model) : startPosition s 2 = s.currentDiskPosition.e1 := rfl

theorem drivingDiskRotationMode_zero (s : Model) (d : Nat) :
    drivingDiskRotationMode s 0 d = d := rfl

theorem drivingDiskRotationMode_one (s : Model) (d : Nat) :
    drivingDiskRotationMode s 1 d = s.rotationMode.e0 := rfl

theorem drivingDiskRotationMode_two (s : Model) (d : Nat) :
    drivingDiskRotationMode s 2 d = s.rotationMode.e1 := rfl

theorem Arr3.get_zero (a : Arr3) : a.get 0 = a.e0 := rfl

theorem Arr3.get_one (a : Arr3) : a.get 1 = a.e1 := rfl

theorem Arr3.get_two (a : Arr3) : a.get 2 = a.e2 := rfl

/-- One unfolding of the alignment loop. -/
theorem whileNotAligned_succ (cond : Model → Bool) (d fuel : Nat) (s : Model) :
    whileNotAligned cond d (fuel + 1) s
      = if cond s = true then some s else whileNotAligned cond d fuel (rotateFull d s) := rfl

/-- The alignment loop issues no rotation when its condition already holds. -/
theorem whileNotAligned_of_cond (cond : Model → Bool) (d fuel : Nat) (s : Model)
    (h : cond s = true) : whileNotAligned cond d fuel s = some s := by
  cases fuel <;> simp [whileNotAligned, h]

/-- The alignment loop returns only states satisfying its condition. -/
theorem whileNotAligned_cond (cond : Model → Bool) (d : Nat) :
    ∀ (fuel : Nat) (s s1 : Model), whileNotAligned cond d fuel s = some s1 → cond s1 = true := by
  intro fuel
  induction fuel with
  | zero =>
    intro s s1 h
    by_cases hc : cond s = true
    · simp [whileNotAligned, hc] at h
      rw [← h]; exact hc
    · simp [whileNotAligned, hc] at h
  | succ fuel ih =>
    intro s s1 h
    by_cases hc : cond s = true
    · simp [whileNotAligned, hc] at h
      rw [← h]; exact hc
    · simp only [whileNotAligned, hc] at h
      exact ih _ _ (by simpa using h)

/-- A direct rotation moves disk 0 when the predictor confirms its pickup. -/
theorem rotateDial_moved0 (p d : Nat) (s : Model) (h0 : willPickUpDisk s 0 p d 0 = true) :
    (rotateDial p d s).currentDialPosition = p
    ∧ (rotateDial p d s).currentDiskPosition.e0 = p
    ∧ (rotateDial p d s).rotationMode.e0 = d := by
  rw [rotateDial_eq]
  simp [diskMoving_zero, h0]

/-- A direct rotation moves disk 1 when the predictor confirms disks 0 and 1. -/
theorem rotateDial_moved1 (p d : Nat) (s : Model) (h0 : willPickUpDisk s 0 p d 0 = true)
    (h1 : willPickUpDisk s 1 p d 0 = true) :
    (rotateDial p d s).currentDiskPosition.e1 = p
    ∧ (rotateDial p d s).rotationMode.e1 = d := by
  rw [rotateDial_eq]
  simp [diskMoving_one, h0, h1]

/-- A direct rotation moves disk 2 when the predictor confirms all three disks. -/
theorem rotateDial_moved2 (p d : Nat) (s : Model) (h0 : willPickUpDisk s 0 p d 0 = true)
    (h1 : willPickUpDisk s 1 p d 0 = true) (h2 : willPickUpDisk s 2 p d 0 = true) :
    (rotateDial p d s).currentDiskPosition.e2 = p
    ∧ (rotateDial p d s).rotationMode.e2 = d := by
  rw [rotateDial_eq]
  simp [diskMoving_two, h0, h1, h2]

/-- Whenever `setDisk2` returns, disk 2 is at the position and disk 0 was last
moved counter-clockwise: the test at its entry fails in the state it returns. -/
theorem setDisk2_post (fuel position : Nat) (s s1 : Model)
    (h : setDisk2 fuel position s = some s1) :
    s1.currentDiskPosition.e2 = position ∧ s1.rotationMode.e0 = 2 := by
  unfold setDisk2 at h
  split at h
  · cases hw : whileNotAligned (aligned2 position) 2 fuel s with
    | none => simp [hw] at h
    | some t =>
      have hc := whileNotAligned_cond _ _ _ _ _ hw
      simp only [aligned2, Bool.and_eq_true] at hc
      replace h : rotateDial position 2 t = s1 := by simpa [hw] using h
      subst h
      exact ⟨(rotateDial_moved2 position 2 t hc.1.1 hc.1.2 hc.2).1,
        (rotateDial_moved0 position 2 t hc.1.1).2.2⟩
  · rename_i hn
    simp only [Option.some.injEq] at h
    subst h
    simp only [Arr3.get_two, Arr3.get_zero] at hn
    omega

/-- Whenever `setDisk1` returns, disk 1 is at the position, last moved clockwise. -/
theorem setDisk1_post (fuel position : Nat) (s s1 : Model)
    (h : setDisk1 fuel position s = some s1) :
    s1.currentDiskPosition.e1 = position ∧ s1.rotationMode.e1 = 1 := by
  unfold setDisk1 at h
  split at h
  · cases hw : whileNotAligned (aligned1 position) 1 fuel s with
    | none => simp [hw] at h
    | some t =>
      have hc := whileNotAligned_cond _ _ _ _ _ hw
      simp only [aligned1, Bool.and_eq_true] at hc
      replace h : rotateDial position 1 t = s1 := by simpa [hw] using h
      subst h
      exact rotateDial_moved1 position 1 t hc.1 hc.2
  · rename_i hn
    simp only [Option.some.injEq] at h
    subst h
    simp only [Arr3.get_one] at hn
    omega

/-- Whenever `setDisk0` returns, disk 0 is at the position, last moved
counter-clockwise. -/
theorem setDisk0_post (fuel position : Nat) (s s1 : Model)
    (h : setDisk0 fuel position s = some s1) :
    s1.currentDiskPosition.e0 = position ∧ s1.rotationMode.e0 = 2 := by
  unfold setDisk0 at h
  split at h
  · cases hw : whileNotAligned (aligned0 position) 2 fuel s with
    | none => simp [hw] at h
    | some t =>
      have hc := whileNotAligned_cond _ _ _ _ _ hw
      simp only [aligned0] at hc
      replace h : rotateDial position 2 t = s1 := by simpa [hw] using h
      subst h
      exact (rotateDial_moved0 position 2 t hc).2
  · rename_i hn
    simp only [Option.some.injEq] at h
    subst h
    simp only [Arr3.get_zero] at hn
    omega

/-- With fuel for three full rotations `setDisk2` returns. -/
theorem setDisk2_returns (fuel position : Nat) (s : Model) :
    ∃ s1, setDisk2 (3 + fuel) position s = some s1 := by
  obtain ⟨m, _, hr, _⟩ := whileNotAligned_returns (aligned2 position) 2 fuel s
    (aligned2_of_riding position)
  unfold setDisk2
  split
  · rw [hr]; exact ⟨_, rfl⟩
  · exact ⟨_, rfl⟩

/-- With fuel for three full rotations `setDisk1` returns. -/
theorem setDisk1_returns (fuel position : Nat) (s : Model) :
    ∃ s1, setDisk1 (3 + fuel) position s = some s1 := by
  obtain ⟨m, _, hr, _⟩ := whileNotAligned_returns (aligned1 position) 1 fuel s
    (aligned1_of_riding position)
  unfold setDisk1
  split
  · rw [hr]; exact ⟨_, rfl⟩
  · exact ⟨_, rfl⟩

/-- With fuel for three full rotations `setDisk0` returns. -/
theorem setDisk0_returns (fuel position : Nat) (s : Model) :
    ∃ s1, setDisk0 (3 + fuel) position s = some s1 := by
  obtain ⟨m, _, hr, _⟩ := whileNotAligned_returns (aligned0 position) 2 fuel s
    (aligned0_of_riding position)
  unfold setDisk0
  split
  · rw [hr]; exact ⟨_, rfl⟩
  · exact ⟨_, rfl⟩

/-- C4: for each setter, every state and every position, the setter returns
(given fuel for three full rotations), and a second call with the same position
right after it returns the very state the first call left, stepper log
included: it issues no `rotateFull` and no `rotateDial`. -/
theorem setDisk_idempotent (s : Model) (position fuel fuel2 : Nat) :
    (∃ s1, setDisk0 (3 + fuel) position s = some s1
        ∧ setDisk0 fuel2 position s1 = some s1)
    ∧ (∃ s1, setDisk1 (3 + fuel) position s = some s1
        ∧ setDisk1 fuel2 position s1 = some s1)
    ∧ (∃ s1, setDisk2 (3 + fuel) position s = some s1
        ∧ setDisk2 fuel2 position s1 = some s1) := by
  obtain ⟨t0, h0⟩ := setDisk0_returns fuel position s
  obtain ⟨t1, h1⟩ := setDisk1_returns fuel position s
  obtain ⟨t2, h2⟩ := setDisk2_returns fuel position s
  refine ⟨⟨t0, h0, ?_⟩, ⟨t1, h1, ?_⟩, ⟨t2, h2, ?_⟩⟩
  · obtain ⟨hp, hm⟩ := setDisk0_post _ _ _ _ h0
    simp [setDisk0, Arr3.get_zero, hp, hm]
  · obtain ⟨hp, hm⟩ := setDisk1_post _ _ _ _ h1
    simp [setDisk1, Arr3.get_one, hp, hm]
  · obtain ⟨hp, hm⟩ := setDisk2_post _ _ _ _ h2
    simp [setDisk2, Arr3.get_two, Arr3.get_zero, hp, hm]

/-- When `setDisk2` repositions, it leaves the dial and all three disks at the
position, every disk last moved counter-clockwise. -/
theorem setDisk2_enter (fuel position : Nat) (s : Model)
    (h : s.currentDiskPosition.get 2 ≠ position ∨ s.rotationMode.get 0 ≠ 2) :
    ∃ s1, setDisk2 (3 + fuel) position s = some s1 ∧ s1.currentDialPosition = position
      ∧ s1.currentDiskPosition = ⟨position, position, position⟩
      ∧ s1.rotationMode = ⟨2, 2, 2⟩ := by
  obtain ⟨m, _, hr, hc⟩ := whileNotAligned_returns (aligned2 position) 2 fuel s
    (aligned2_of_riding position)
  simp only [aligned2, Bool.and_eq_true] at hc
  obtain ⟨a0, b0, c0⟩ := rotateDial_moved0 position 2 _ hc.1.1
  obtain ⟨b1, c1⟩ := rotateDial_moved1 position 2 _ hc.1.1 hc.1.2
  obtain ⟨b2, c2⟩ := rotateDial_moved2 position 2 _ hc.1.1 hc.1.2 hc.2
  refine ⟨rotateDial position 2 ((rotateFull 2)^[m] s), ?_, a0,
    Arr3.eq_mk _ _ _ _ b0 b1 b2, Arr3.eq_mk _ _ _ _ c0 c1 c2⟩
  simp [setDisk2, h, hr]

/-- From a state where the dial and all disks are at `a`, last moved
counter-clockwise, `setDisk1 b` makes two clockwise full rotations and one
direct rotation: disks 0 and 1 end at `b` clockwise, disk 2 stays. -/
theorem setDisk1_after_setDisk2 (fuel a b : Nat) (s : Model)
    (hd : s.currentDialPosition = a) (hp : s.currentDiskPosition = ⟨a, a, a⟩)
    (hm : s.rotationMode = ⟨2, 2, 2⟩) :
    ∃ s1, setDisk1 (fuel + 2) b s = some s1 ∧ s1.currentDialPosition = b
      ∧ s1.currentDiskPosition = ⟨b, b, a⟩ ∧ s1.rotationMode = ⟨1, 1, 2⟩ := by
  obtain ⟨dial, pos, mode, off, log⟩ := s
  simp only at hd hp hm
  subst hd hp hm
  have e1 : ∀ l, aligned1 b ⟨dial, ⟨dial, dial, dial⟩, ⟨2, 2, 2⟩, off, l⟩ = false := by
    intro l
    simp [aligned1, willPickUpDisk_eq_decide, startPosition_zero, startPosition_one, startPosition_two,
      drivingDiskRotationMode_zero, drivingDiskRotationMode_one, drivingDiskRotationMode_two,
      Arr3.get_zero, Arr3.get_one, Arr3.get_two]
    omega
  have r1 : ∀ l, rotateFull 1 ⟨dial, ⟨dial, dial, dial⟩, ⟨2, 2, 2⟩, off, l⟩
      = ⟨dial, ⟨dial, dial, dial⟩, ⟨1, 2, 2⟩, off,
          l ++ [StepperCall.move (rotateFullSteps 1)]⟩ := by
    intro l
    rw [rotateFull_eq]
    simp [diskMoving_zero, diskMoving_one, diskMoving_two, willPickUpDisk_eq_decide, startPosition_zero, startPosition_one, startPosition_two,
      drivingDiskRotationMode_zero, drivingDiskRotationMode_one, drivingDiskRotationMode_two,
      Arr3.get_zero, Arr3.get_one, Arr3.get_two]
  have e2 : ∀ l, aligned1 b ⟨dial, ⟨dial, dial, dial⟩, ⟨1, 2, 2⟩, off, l⟩ = false := by
    intro l
    simp [aligned1, willPickUpDisk_eq_decide, startPosition_zero, startPosition_one, startPosition_two,
      drivingDiskRotationMode_zero, drivingDiskRotationMode_one, drivingDiskRotationMode_two,
      Arr3.get_zero, Arr3.get_one, Arr3.get_two]
    omega
  have r2 : ∀ l, rotateFull 1 ⟨dial, ⟨dial, dial, dial⟩, ⟨1, 2, 2⟩, off, l⟩
      = ⟨dial, ⟨dial, dial, dial⟩, ⟨1, 1, 2⟩, off,
          l ++ [StepperCall.move (rotateFullSteps 1)]⟩ := by
    intro l
    rw [rotateFull_eq]
    simp [diskMoving_zero, diskMoving_one, diskMoving_two, willPickUpDisk_eq_decide, startPosition_zero, startPosition_one, startPosition_two,
      drivingDiskRotationMode_zero, drivingDiskRotationMode_one, drivingDiskRotationMode_two,
      Arr3.get_zero, Arr3.get_one, Arr3.get_two]
  have w0 : ∀ l, willPickUpDisk ⟨dial, ⟨dial, dial, dial⟩, ⟨1, 1, 2⟩, off, l⟩ 0 b 1 0
      = true := by
    intro l
    simp [willPickUpDisk_eq_decide, startPosition_zero, startPosition_one, startPosition_two,
      drivingDiskRotationMode_zero, drivingDiskRotationMode_one, drivingDiskRotationMode_two,
      Arr3.get_zero, Arr3.get_one, Arr3.get_two]
    omega
  have w1 : ∀ l, willPickUpDisk ⟨dial, ⟨dial, dial, dial⟩, ⟨1, 1, 2⟩, off, l⟩ 1 b 1 0
      = true := by
    intro l
    simp [willPickUpDisk_eq_decide, startPosition_zero, startPosition_one, startPosition_two,
      drivingDiskRotationMode_zero, drivingDiskRotationMode_one, drivingDiskRotationMode_two,
      Arr3.get_zero, Arr3.get_one, Arr3.get_two]
    omega
  have w2 : ∀ l, willPickUpDisk ⟨dial, ⟨dial, dial, dial⟩, ⟨1, 1, 2⟩, off, l⟩ 2 b 1 0
      = false := by
    intro l
    simp [willPickUpDisk_eq_decide, startPosition_zero, startPosition_one, startPosition_two,
      drivingDiskRotationMode_zero, drivingDiskRotationMode_one, drivingDiskRotationMode_two,
      Arr3.get_zero, Arr3.get_one, Arr3.get_two]
    omega
  have e3 : ∀ l, aligned1 b ⟨dial, ⟨dial, dial, dial⟩, ⟨1, 1, 2⟩, off, l⟩ = true := by
    intro l
    simp [aligned1, w0, w1]
  have hif : (Model.mk dial ⟨dial, dial, dial⟩ ⟨2, 2, 2⟩ off log).currentDiskPosition.get 1 ≠ b
      ∨ (Model.mk dial ⟨dial, dial, dial⟩ ⟨2, 2, 2⟩ off log).rotationMode.get 1 ≠ 1 :=
    Or.inr (by simp [Arr3.get_one])
  refine ⟨rotateDial b 1 ⟨dial, ⟨dial, dial, dial⟩, ⟨1, 1, 2⟩, off,
      log ++ [StepperCall.move (rotateFullSteps 1)]
        ++ [StepperCall.move (rotateFullSteps 1)]⟩, ?_, ?_, ?_, ?_⟩
  · rw [setDisk1, if_pos hif, whileNotAligned_succ, e1, if_neg Bool.false_ne_true, r1,
      whileNotAligned_succ, e2, if_neg Bool.false_ne_true, r2,
      whileNotAligned_of_cond _ _ _ _ (e3 _)]
    rfl
  · rw [rotateDial_eq]
  · rw [rotateDial_eq]
    simp [diskMoving_zero, diskMoving_one, diskMoving_two, w0, w1, w2]
  · rw [rotateDial_eq]
    simp [diskMoving_zero, diskMoving_one, diskMoving_two, w0, w1, w2]

/-- From a state where the dial and disks 0 and 1 are at `b`, last moved
clockwise, and disk 2 is at `a`, last moved counter-clockwise, `setDisk0 c`
makes one counter-clockwise full rotation and one direct rotation: disk 0 ends
at `c` counter-clockwise, disks 1 and 2 stay. -/
theorem setDisk0_after_setDisk1 (fuel a b c : Nat) (s : Model)
    (hd : s.currentDialPosition = b) (hp : s.currentDiskPosition = ⟨b, b, a⟩)
    (hm : s.rotationMode = ⟨1, 1, 2⟩) :
    ∃ s1, setDisk0 (fuel + 1) c s = some s1 ∧ s1.currentDialPosition = c
      ∧ s1.currentDiskPosition = ⟨c, b, a⟩ ∧ s1.rotationMode = ⟨2, 1, 2⟩ := by
  obtain ⟨dial, pos, mode, off, log⟩ := s
  simp only at hd hp hm
  subst hd hp hm
  have e1 : ∀ l, aligned0 c ⟨dial, ⟨dial, dial, a⟩, ⟨1, 1, 2⟩, off, l⟩ = false := by
    intro l
    simp [aligned0, willPickUpDisk_eq_decide, startPosition_zero, startPosition_one, startPosition_two,
      drivingDiskRotationMode_zero, drivingDiskRotationMode_one, drivingDiskRotationMode_two,
      Arr3.get_zero, Arr3.get_one, Arr3.get_two]
    omega
  have r1 : ∀ l, rotateFull 2 ⟨dial, ⟨dial, dial, a⟩, ⟨1, 1, 2⟩, off, l⟩
      = ⟨dial, ⟨dial, dial, a⟩, ⟨2, 1, 2⟩, off,
          l ++ [StepperCall.move (rotateFullSteps 2)]⟩ := by
    intro l
    rw [rotateFull_eq]
    simp [diskMoving_zero, diskMoving_one, diskMoving_two, willPickUpDisk_eq_decide, startPosition_zero, startPosition_one, startPosition_two,
      drivingDiskRotationMode_zero, drivingDiskRotationMode_one, drivingDiskRotationMode_two,
      Arr3.get_zero, Arr3.get_one, Arr3.get_two]
  have w0 : ∀ l, willPickUpDisk ⟨dial, ⟨dial, dial, a⟩, ⟨2, 1, 2⟩, off, l⟩ 0 c 2 0
      = true := by
    intro l
    simp [willPickUpDisk_eq_decide, startPosition_zero, startPosition_one, startPosition_two,
      drivingDiskRotationMode_zero, drivingDiskRotationMode_one, drivingDiskRotationMode_two,
      Arr3.get_zero, Arr3.get_one, Arr3.get_two]
    omega
  have w1 : ∀ l, willPickUpDisk ⟨dial, ⟨dial, dial, a⟩, ⟨2, 1, 2⟩, off, l⟩ 1 c 2 0
      = false := by
    intro l
    simp [willPickUpDisk_eq_decide, startPosition_zero, startPosition_one, startPosition_two,
      drivingDiskRotationMode_zero, drivingDiskRotationMode_one, drivingDiskRotationMode_two,
      Arr3.get_zero, Arr3.get_one, Arr3.get_two]
    omega
  have hif : (Model.mk dial ⟨dial, dial, a⟩ ⟨1, 1, 2⟩ off log).currentDiskPosition.get 0 ≠ c
      ∨ (Model.mk dial ⟨dial, dial, a⟩ ⟨1, 1, 2⟩ off log).rotationMode.get 0 ≠ 2 :=
    Or.inr (by simp [Arr3.get_zero])
  refine ⟨rotateDial c 2 ⟨dial, ⟨dial, dial, a⟩, ⟨2, 1, 2⟩, off,
      log ++ [StepperCall.move (rotateFullSteps 2)]⟩, ?_, ?_, ?_, ?_⟩
  · rw [setDisk0, if_pos hif, whileNotAligned_succ, e1, if_neg Bool.false_ne_true, r1,
      whileNotAligned_of_cond _ _ _ _ (show aligned0 c _ = true from w0 _)]
    rfl
  · rw [rotateDial_eq]
  · rw [rotateDial_eq]
    simp [diskMoving_zero, diskMoving_one, diskMoving_two, w0, w1]
  · rw [rotateDial_eq]
    simp [diskMoving_zero, diskMoving_one, diskMoving_two, w0, w1]

/-- C1: from the boot state with the dial calibrated to 0, for all `a`, `b`,
`c` below 100, `dialCombination a b c` returns (three full rotations of fuel
suffice) and leaves disk 2 at `a` counter-clockwise, disk 1 at `b` clockwise,
disk 0 at `c` counter-clockwise and the dial at `c`. -/
theorem dialCombination_from_calibrated_boot (a b c fuel : Nat)
    (_ha : a < 100) (_hb : b < 100) (_hc : c < 100) :
    ∃ s0 s1, loop fuel '0' boot = some s0
      ∧ dialCombination (3 + fuel) a b c s0 = some s1
      ∧ s1.currentDiskPosition.get 2 = a ∧ s1.rotationMode.get 2 = 2
      ∧ s1.currentDiskPosition.get 1 = b ∧ s1.rotationMode.get 1 = 1
      ∧ s1.currentDiskPosition.get 0 = c ∧ s1.rotationMode.get 0 = 2
      ∧ s1.currentDialPosition = c := by
  have h0 : loop fuel '0' boot
      = some ⟨0, ⟨255, 255, 255⟩, ⟨0, 0, 0⟩, 0, [StepperCall.setCurrentPosition 0]⟩ := by
    simp [loop, boot]
  obtain ⟨t2, r2, d2, p2, m2⟩ := setDisk2_enter fuel a
    ⟨0, ⟨255, 255, 255⟩, ⟨0, 0, 0⟩, 0, [StepperCall.setCurrentPosition 0]⟩
    (Or.inr (by simp [Arr3.get_zero]))
  obtain ⟨t1, r1, d1, p1, m1⟩ := setDisk1_after_setDisk2 (fuel + 1) a b t2 d2 p2 m2
  obtain ⟨t0, r0, d0, p0, m0⟩ := setDisk0_after_setDisk1 (fuel + 2) a b c t1 d1 p1 m1
  have e1 : 3 + fuel = fuel + 1 + 2 := by omega
  have e0 : 3 + fuel = fuel + 2 + 1 := by omega
  refine ⟨_, t0, h0, ?_, ?_⟩
  · unfold dialCombination
    rw [r2, Option.some_bind, e1, r1, Option.some_bind, ← e1, e0, r0]
  · simp [p0, m0, d0, Arr3.get_zero, Arr3.get_one, Arr3.get_two]

/-- Witness for C1: `dialCombination 98 0 50` from the calibrated boot state. -/
theorem dialCombination_from_calibrated_boot_witness :
    ∃ s0 s1, loop 0 '0' boot = some s0
      ∧ dialCombination 3 98 0 50 s0 = some s1
      ∧ s1.currentDiskPosition.get 2 = 98 ∧ s1.rotationMode.get 2 = 2
      ∧ s1.currentDiskPosition.get 1 = 0 ∧ s1.rotationMode.get 1 = 1
      ∧ s1.currentDiskPosition.get 0 = 50 ∧ s1.rotationMode.get 0 = 2
      ∧ s1.currentDialPosition = 50 :=
  dialCombination_from_calibrated_boot 98 0 50 0 (by decide) (by decide) (by decide)

/-- The first disk-2 candidate, when there is one. -/
theorem disk2Candidates_cons (v : Nat) (h : v < 100) :
    disk2Candidates v = v :: disk2Candidates (v + 2) := by
  unfold disk2Candidates
  have e : (101 - v) / 2 = (101 - (v + 2)) / 2 + 1 := by omega
  rw [e, List.range_succ_eq_map, List.map_cons, List.map_map]
  congr 1
  apply List.map_congr_left
  intro n _
  simp only [Function.comp_apply]
  omega

/-- There is no disk-2 candidate from 100 on. -/
theorem disk2Candidates_nil (v : Nat) (h : 100 ≤ v) : disk2Candidates v = [] := by
  unfold disk2Candidates
  have e : (101 - v) / 2 = 0 := by omega
  rw [e]
  rfl

/-- An ascending loop runs its body over the values `v`, `v + 2`, ... below
100, given fuel for one more test of the loop condition than that. -/
theorem forLoop_plusTwo {σ : Type} (body : Nat → σ → Option σ) :
    ∀ (n v fuel : Nat) (st : σ), (101 - v) / 2 = n → n < fuel →
      forLoop plusTwo body fuel v st = (disk2Candidates v).foldlM (fun st1 w => body w st1) st := by
  intro n
  induction n with
  | zero =>
    intro v fuel st hn hf
    have hv : 100 ≤ v := by omega
    cases fuel with
    | zero => omega
    | succ fuel =>
      rw [disk2Candidates_nil v hv]
      simp [forLoop, Nat.not_lt.mpr hv]
  | succ n ih =>
    intro v fuel st hn hf
    have hv : v < 100 := by omega
    cases fuel with
    | zero => omega
    | succ fuel =>
      have hp : plusTwo v = v + 2 := by unfold plusTwo; omega
      rw [disk2Candidates_cons v hv, List.foldlM_cons]
      simp only [forLoop, hv, if_true, hp]
      cases body v st with
      | none => rfl
      | some st1 => exact ih (v + 2) fuel st1 (by omega) (by omega)

/-- A descending loop started at the even value `2 * m` below 100 runs its body
over `2 * m`, `2 * m - 2`, ..., `0` and stops when the counter wraps around. -/
theorem forLoop_minusTwo {σ : Type} (body : Nat → σ → Option σ) :
    ∀ (m fuel : Nat) (st : σ), m < 50 → m + 1 < fuel →
      forLoop minusTwo body fuel (2 * m) st
        = ((List.range (m + 1)).map (fun n => 2 * m - 2 * n)).foldlM (fun st1 w => body w st1) st := by
  intro m
  induction m with
  | zero =>
    intro fuel st _ hf
    obtain ⟨f, rfl⟩ : ∃ f, fuel = f + 2 := ⟨fuel - 2, by omega⟩
    simp only [forLoop, Nat.mul_zero, Nat.zero_lt_succ, if_true]
    cases h : body 0 st with
    | none => simp [h]
    | some st1 => simp [h, minusTwo]
  | succ m ih =>
    intro fuel st hm hf
    obtain ⟨f, rfl⟩ : ∃ f, fuel = f + 1 := ⟨fuel - 1, by omega⟩
    have hv : 2 * (m + 1) < 100 := by omega
    have hp : minusTwo (2 * (m + 1)) = 2 * m := by unfold minusTwo; omega
    rw [List.range_succ_eq_map, List.map_cons, List.map_map, List.foldlM_cons]
    simp only [forLoop, hv, if_true, hp]
    have e : (List.range (m + 1)).map ((fun n => 2 * (m + 1) - 2 * n) ∘ Nat.succ)
        = (List.range (m + 1)).map (fun n => 2 * m - 2 * n) := by
      apply List.map_congr_left
      intro n _
      simp only [Function.comp_apply]
      omega
    rw [e, Nat.mul_zero, Nat.sub_zero]
    cases body (2 * (m + 1)) st with
    | none => rfl
    | some st1 => exact ih f st1 (by omega) (by omega)

/-- Folding over a mapped list. -/
theorem foldlM_option_map {α β σ : Type} (f : α → β) (g : σ → β → Option σ) :
    ∀ (l : List α) (st : σ),
      (l.map f).foldlM g st = l.foldlM (fun st1 x => g st1 (f x)) st := by
  intro l
  induction l with
  | nil => intro st; rfl
  | cons x l ih =>
    intro st
    rw [List.map_cons, List.foldlM_cons, List.foldlM_cons]
    cases g st (f x) with
    | none => rfl
    | some st1 => exact ih st1

/-- Folding over a concatenation of lists is a nested fold. -/
theorem foldlM_option_flatMap {α β σ : Type} (f : α → List β) (g : σ → β → Option σ) :
    ∀ (l : List α) (st : σ),
      (l.flatMap f).foldlM g st = l.foldlM (fun st1 x => (f x).foldlM g st1) st := by
  intro l
  induction l with
  | nil => intro st; rfl
  | cons x l ih =>
    intro st
    rw [List.flatMap_cons, List.foldlM_append, List.foldlM_cons]
    cases (f x).foldlM g st with
    | none => rfl
    | some st1 => exact ih st1

/-- The search loops run their body over the triples of `specCandidates`, in
that order, given fuel for 51 tests of each loop condition. -/
theorem searchLoops_eq_foldlM {σ : Type} (body : Nat → Nat → Nat → σ → Option σ)
    (extra s : Nat) (st : σ) :
    searchLoops (51 + extra) body s st
      = (specCandidates s).foldlM (fun st1 c => body c.1 c.2.1 c.2.2 st1) st := by
  have inner : ∀ k j, (fun st1 => forLoop plusTwo (fun i => body k j i) (51 + extra) 0 st1)
      = fun st1 => disk0Candidates.foldlM (fun st2 i => body k j i st2) st1 := by
    intro k j
    funext st1
    exact forLoop_plusTwo (fun i => body k j i) 50 0 (51 + extra) st1 (by decide) (by omega)
  have middle : ∀ k, (fun st1 => forLoop minusTwo
        (fun j => forLoop plusTwo (fun i => body k j i) (51 + extra) 0) (51 + extra) 98 st1)
      = fun st1 => disk1Candidates.foldlM
          (fun st2 j => disk0Candidates.foldlM (fun st3 i => body k j i st3) st2) st1 := by
    intro k
    funext st1
    have h := forLoop_minusTwo
      (fun j => forLoop plusTwo (fun i => body k j i) (51 + extra) 0) 49 (51 + extra) st1
      (by decide) (by omega)
    rw [show (98 : Nat) = 2 * 49 from rfl, h]
    have hb : ∀ j, (fun st2 => forLoop plusTwo (fun i => body k j i) (51 + extra) 0 st2)
        = fun st2 => disk0Candidates.foldlM (fun st3 i => body k j i st3) st2 := inner k
    simp only [hb]
    rfl
  unfold searchLoops specCandidates
  rw [forLoop_plusTwo _ ((101 - s) / 2) s (51 + extra) st rfl (by omega)]
  rw [foldlM_option_flatMap]
  congr 1
  funext st1 k
  rw [foldlM_option_flatMap]
  have hm := congrFun (middle k) st1
  simp only at hm
  rw [hm]
  refine congrArg (fun g => List.foldlM g st1 disk1Candidates) ?_
  funext st2 j
  exact (foldlM_option_map (fun i => (k, j, i))
    (fun st3 c => body c.1 c.2.1 c.2.2 st3) disk0Candidates st2).symm

/-- Recording the candidates of a list appends the list. -/
theorem foldlM_recordCandidate :
    ∀ (l seen : List (Nat × Nat × Nat)),
      l.foldlM (fun acc c => recordCandidate c.1 c.2.1 c.2.2 acc) seen = some (seen ++ l) := by
  intro l
  induction l with
  | nil => intro seen; simp
  | cons c l ih =>
    intro seen
    rw [List.foldlM_cons]
    exact (ih (seen ++ [c])).trans (by simp)

/-- Length of a concatenation of lists of one length. -/
theorem length_flatMap_const {α β : Type} (f : α → List β) (c : Nat)
    (h : ∀ x, (f x).length = c) : ∀ l : List α, (l.flatMap f).length = l.length * c := by
  intro l
  induction l with
  | nil => simp
  | cons x l ih =>
    rw [List.flatMap_cons, List.length_append, ih, h, List.length_cons]
    ring

/-- C9: for every start offset the search hands `dialCombination` a finite
sequence of candidates (51 tests of each loop condition suffice), namely all
triples `(k, j, i)` with `k = s, s + 2, ...` below 100 outermost, `j = 98, 96,
..., 0` in the middle and `i = 0, 2, ..., 98` innermost; the `s` command runs
`dialCombination; testOpen` over exactly that sequence; with offset 0 the first
three candidates are (0, 98, 0), (0, 98, 2), (0, 98, 4) and there are 50*50*50
candidates. -/
theorem search_order (s extra : Nat) :
    searchCandidates (51 + extra) s = some (specCandidates s)
    ∧ (∀ st : Model, st.startOffset = s →
        loop (51 + extra) 's' st
          = (specCandidates s).foldlM
              (fun st1 c => tryCombination (51 + extra) c.1 c.2.1 c.2.2 st1) st)
    ∧ (∀ k, k ∈ disk2Candidates s ↔ (s ≤ k ∧ k < 100 ∧ (k - s) % 2 = 0))
    ∧ (∀ j, j ∈ disk1Candidates ↔ (j ≤ 98 ∧ j % 2 = 0))
    ∧ (∀ i, i ∈ disk0Candidates ↔ (i ≤ 98 ∧ i % 2 = 0))
    ∧ (specCandidates 0).take 3 = [(0, 98, 0), (0, 98, 2), (0, 98, 4)]
    ∧ (specCandidates 0).length = 50 * 50 * 50 := by
  refine ⟨?_, ?_, ?_, ?_, ?_, ?_, ?_⟩
  · unfold searchCandidates
    rw [searchLoops_eq_foldlM, foldlM_recordCandidate]
    rfl
  · intro st hst
    have hl : loop (51 + extra) 's' st
        = searchLoops (51 + extra) (tryCombination (51 + extra)) st.startOffset st := by
      simp [loop]
    rw [hl, hst, searchLoops_eq_foldlM]
  · intro k
    simp only [disk2Candidates, List.mem_map, List.mem_range]
    constructor
    · rintro ⟨n, hn, rfl⟩
      omega
    · intro h
      exact ⟨(k - s) / 2, by omega, by omega⟩
  · intro j
    simp only [disk1Candidates, List.mem_map, List.mem_range]
    constructor
    · rintro ⟨n, hn, rfl⟩
      omega
    · intro h
      exact ⟨(98 - j) / 2, by omega, by omega⟩
  · intro i
    simp only [disk0Candidates, List.mem_map, List.mem_range]
    constructor
    · rintro ⟨n, hn, rfl⟩
      omega
    · intro h
      exact ⟨i / 2, by omega, by omega⟩
  · decide
  · unfold specCandidates
    rw [length_flatMap_const _ (50 * 50)]
    · rfl
    · intro k
      rw [length_flatMap_const _ 50]
      · rfl
      · intro j
        simp [disk0Candidates]

/-- The alignment loop preserves every property full rotations preserve. -/
theorem whileNotAligned_preserves (P : Model → Prop) (cond : Model → Bool) (d : Nat)
    (hFull : ∀ s, P s → P (rotateFull d s)) :
    ∀ (fuel : Nat) (s s1 : Model), P s → whileNotAligned cond d fuel s = some s1 → P s1 := by
  intro fuel
  induction fuel with
  | zero =>
    intro s s1 hs h
    by_cases hc : cond s = true
    · simp [whileNotAligned, hc] at h
      rw [← h]; exact hs
    · simp [whileNotAligned, hc] at h
  | succ fuel ih =>
    intro s s1 hs h
    by_cases hc : cond s = true
    · simp [whileNotAligned, hc] at h
      rw [← h]; exact hs
    · simp only [whileNotAligned, hc] at h
      exact ih _ _ (hFull s hs) (by simpa using h)

/-- A setter body (alignment loop, then the direct rotation) preserves every
property that full and direct rotations in its sense preserve. -/
theorem setter_preserves (P : Model → Prop) (cond : Model → Bool) (d position fuel : Nat)
    (hFull : ∀ s, P s → P (rotateFull d s))
    (hDial : ∀ s, P s → P (rotateDial position d s)) (s s1 : Model) (hs : P s)
    (h : (whileNotAligned cond d fuel s).map (rotateDial position d) = some s1) : P s1 := by
  cases hw : whileNotAligned cond d fuel s with
  | none => simp [hw] at h
  | some t =>
    have ht := whileNotAligned_preserves P cond d hFull fuel s t hs hw
    have e : rotateDial position d t = s1 := by simpa [hw] using h
    rw [← e]
    exact hDial t ht

/-- `dialCombination` with targets below 100 preserves every property that
full rotations and direct rotations to targets below 100 preserve. -/
theorem dialCombination_preserves (P : Model → Prop)
    (hFull : ∀ d s, (d = 1 ∨ d = 2) → P s → P (rotateFull d s))
    (hDial : ∀ p d s, p < 100 → (d = 1 ∨ d = 2) → P s → P (rotateDial p d s))
    (fuel k j i : Nat) (hk : k < 100) (hj : j < 100) (hi : i < 100) (s s1 : Model)
    (hs : P s) (h : dialCombination fuel k j i s = some s1) : P s1 := by
  unfold dialCombination at h
  cases h2 : setDisk2 fuel k s with
  | none => simp [h2] at h
  | some t2 =>
    cases h1 : setDisk1 fuel j t2 with
    | none => simp [h2, h1] at h
    | some t1 =>
      have h0 : setDisk0 fuel i t1 = some s1 := by simpa [h2, h1] using h
      have p2 : P t2 := by
        unfold setDisk2 at h2
        split at h2
        · exact setter_preserves P _ 2 k fuel (fun s => hFull 2 s (Or.inr rfl))
            (fun s => hDial k 2 s hk (Or.inr rfl)) s t2 hs h2
        · simp only [Option.some.injEq] at h2
          rw [← h2]; exact hs
      have p1 : P t1 := by
        unfold setDisk1 at h1
        split at h1
        · exact setter_preserves P _ 1 j fuel (fun s => hFull 1 s (Or.inl rfl))
            (fun s => hDial j 1 s hj (Or.inl rfl)) t2 t1 p2 h1
        · simp only [Option.some.injEq] at h1
          rw [← h1]; exact p2
      unfold setDisk0 at h0
      split at h0
      · exact setter_preserves P _ 2 i fuel (fun s => hFull 2 s (Or.inr rfl))
          (fun s => hDial i 2 s hi (Or.inr rfl)) t1 s1 p1 h0
      · simp only [Option.some.injEq] at h0
        rw [← h0]; exact p1

/-- `testOpen` preserves every property that direct rotations to targets below
100 preserve. -/
theorem testOpen_preserves (P : Model → Prop)
    (hDial : ∀ p d s, p < 100 → (d = 1 ∨ d = 2) → P s → P (rotateDial p d s))
    (s : Model) (hs : P s) : P (testOpen s) := by
  unfold testOpen
  exact hDial _ 2 _ (Nat.mod_lt _ (by decide)) (Or.inr rfl)
    (hDial _ 1 _ (Nat.mod_lt _ (by decide)) (Or.inl rfl) hs)

/-- A counting loop preserves every property its body preserves for counter
values below 100. -/
theorem forLoop_preserves {σ : Type} (P : σ → Prop) (next : Nat → Nat)
    (body : Nat → σ → Option σ)
    (hb : ∀ v st st1, v < 100 → P st → body v st = some st1 → P st1) :
    ∀ (fuel v : Nat) (st st1 : σ), P st → forLoop next body fuel v st = some st1 → P st1 := by
  intro fuel
  induction fuel with
  | zero =>
    intro v st st1 _ h
    simp [forLoop] at h
  | succ fuel ih =>
    intro v st st1 hs h
    by_cases hv : v < 100
    · simp only [forLoop, hv, if_true] at h
      cases hbody : body v st with
      | none => simp [hbody] at h
      | some t =>
        exact ih (next v) t st1 (hb v st t hv hs hbody) (by simpa [hbody] using h)
    · simp only [forLoop, hv, if_false, Option.some.injEq] at h
      rw [← h]; exact hs

/-- One pass through `loop` preserves every property preserved by full
rotations, direct rotations to targets below 100, calibration and the increment
of the start offset. -/
theorem loop_preserves (P : Model → Prop)
    (hFull : ∀ d s, (d = 1 ∨ d = 2) → P s → P (rotateFull d s))
    (hDial : ∀ p d s, p < 100 → (d = 1 ∨ d = 2) → P s → P (rotateDial p d s))
    (hCal : ∀ s : Model, P s → P { s with
      stepperLog := s.stepperLog ++ [StepperCall.setCurrentPosition 0]
      currentDialPosition := 0 })
    (hInc : ∀ s : Model, P s → P { s with startOffset := (s.startOffset + 1) % 256 })
    (fuel : Nat) (input : Char) (s s1 : Model) (hs : P s)
    (h : loop fuel input s = some s1) : P s1 := by
  have hm : ∀ x : Nat, x % 100 < 100 := fun x => by omega
  rw [loop] at h
  by_cases c1 : input = '1'
  · rw [if_pos c1, Option.some.injEq] at h; rw [← h]; exact hFull 2 s (Or.inr rfl) hs
  rw [if_neg c1] at h
  by_cases c2 : input = '2'
  · rw [if_pos c2, Option.some.injEq] at h; rw [← h]; exact hFull 1 s (Or.inl rfl) hs
  rw [if_neg c2] at h
  by_cases c3 : input = '3'
  · rw [if_pos c3, Option.some.injEq] at h; rw [← h]
    exact hDial _ 2 s (hm _) (Or.inr rfl) hs
  rw [if_neg c3] at h
  by_cases c4 : input = '4'
  · rw [if_pos c4, Option.some.injEq] at h; rw [← h]
    exact hDial _ 1 s (hm _) (Or.inl rfl) hs
  rw [if_neg c4] at h
  by_cases c5 : input = '5'
  · rw [if_pos c5, Option.some.injEq] at h; rw [← h]
    exact hDial _ 2 s (hm _) (Or.inr rfl) hs
  rw [if_neg c5] at h
  by_cases c6 : input = '6'
  · rw [if_pos c6, Option.some.injEq] at h; rw [← h]
    exact hDial _ 1 s (hm _) (Or.inl rfl) hs
  rw [if_neg c6] at h
  by_cases cp : input = 'p'
  · rw [if_pos cp, Option.some.injEq] at h; rw [← h]
    exact hFull 2 _ (Or.inr rfl) (hFull 2 _ (Or.inr rfl) (hFull 2 s (Or.inr rfl) hs))
  rw [if_neg cp] at h
  by_cases c0 : input = '0'
  · rw [if_pos c0, Option.some.injEq] at h; rw [← h]; exact hCal s hs
  rw [if_neg c0] at h
  by_cases ci : input = '+'
  · rw [if_pos ci, Option.some.injEq] at h; rw [← h]; exact hInc s hs
  rw [if_neg ci] at h
  by_cases co : input = 'o'
  · rw [if_pos co, Option.some.injEq] at h; rw [← h]
    exact testOpen_preserves P hDial s hs
  rw [if_neg co] at h
  by_cases cs : input = 's'
  · rw [if_pos cs] at h
    unfold searchLoops at h
    refine forLoop_preserves P plusTwo _ ?_ fuel s.startOffset s s1 hs h
    intro k st st1 hk hst hbk
    refine forLoop_preserves P minusTwo _ ?_ fuel 98 st st1 hst hbk
    intro j st2 st3 hj hst2 hbj
    refine forLoop_preserves P plusTwo _ ?_ fuel 0 st2 st3 hst2 hbj
    intro i st4 st5 hi hst4 hbi
    unfold tryCombination at hbi
    cases hd : dialCombination fuel k j i st4 with
    | none => simp [hd] at hbi
    | some t =>
      have e : testOpen t = st5 := by simpa [hd] using hbi
      rw [← e]
      exact testOpen_preserves P hDial t
        (dialCombination_preserves P hFull hDial fuel k j i hk hj hi st4 t hst4 hd)
  · rw [if_neg cs, Option.some.injEq] at h; rw [← h]; exact hs

/-- A property of the start state that every pass through `loop` preserves
holds in every reachable state. -/
theorem reachable_induction (P : Model → Prop) (s0 : Model) (h0 : P s0)
    (hstep : ∀ fuel input s s1, P s → loop fuel input s = some s1 → P s1) :
    ∀ s, ReachableFrom s0 s → P s := by
  intro s hr
  induction hr with
  | start => exact h0
  | step fuel input s s1 _ hl ih => exact hstep fuel input s s1 ih hl

/-- With fuel for three full rotations `dialCombination` returns. -/
theorem dialCombination_returns (fuel k j i : Nat) (s : Model) :
    ∃ s1, dialCombination (3 + fuel) k j i s = some s1 := by
  obtain ⟨t2, h2⟩ := setDisk2_returns fuel k s
  obtain ⟨t1, h1⟩ := setDisk1_returns fuel j t2
  obtain ⟨t0, h0⟩ := setDisk0_returns fuel i t1
  exact ⟨t0, by unfold dialCombination; rw [h2, Option.some_bind, h1, Option.some_bind, h0]⟩

/-- A fold returns when its step function always does. -/
theorem foldlM_option_returns {α σ : Type} (g : σ → α → Option σ)
    (hg : ∀ st x, ∃ st1, g st x = some st1) :
    ∀ (l : List α) (st : σ), ∃ st1, l.foldlM g st = some st1 := by
  intro l
  induction l with
  | nil => intro st; exact ⟨st, rfl⟩
  | cons x l ih =>
    intro st
    obtain ⟨t, ht⟩ := hg st x
    obtain ⟨t1, ht1⟩ := ih t
    exact ⟨t1, by rw [List.foldlM_cons, ht]; exact ht1⟩

/-- Every pass through `loop` returns, given fuel for 51 tests of each search
loop condition (and so for three full rotations in each alignment loop). -/
theorem loop_returns (extra : Nat) (input : Char) (s : Model) :
    ∃ s1, loop (51 + extra) input s = some s1 := by
  rw [loop]
  by_cases c1 : input = '1'
  · rw [if_pos c1]; exact ⟨_, rfl⟩
  rw [if_neg c1]
  by_cases c2 : input = '2'
  · rw [if_pos c2]; exact ⟨_, rfl⟩
  rw [if_neg c2]
  by_cases c3 : input = '3'
  · rw [if_pos c3]; exact ⟨_, rfl⟩
  rw [if_neg c3]
  by_cases c4 : input = '4'
  · rw [if_pos c4]; exact ⟨_, rfl⟩
  rw [if_neg c4]
  by_cases c5 : input = '5'
  · rw [if_pos c5]; exact ⟨_, rfl⟩
  rw [if_neg c5]
  by_cases c6 : input = '6'
  · rw [if_pos c6]; exact ⟨_, rfl⟩
  rw [if_neg c6]
  by_cases cp : input = 'p'
  · rw [if_pos cp]; exact ⟨_, rfl⟩
  rw [if_neg cp]
  by_cases c0 : input = '0'
  · rw [if_pos c0]; exact ⟨_, rfl⟩
  rw [if_neg c0]
  by_cases ci : input = '+'
  · rw [if_pos ci]; exact ⟨_, rfl⟩
  rw [if_neg ci]
  by_cases co : input = 'o'
  · rw [if_pos co]; exact ⟨_, rfl⟩
  rw [if_neg co]
  by_cases cs : input = 's'
  · rw [if_pos cs, searchLoops_eq_foldlM]
    apply foldlM_option_returns
    intro st c
    have e : 51 + extra = 3 + (48 + extra) := by omega
    obtain ⟨t, ht⟩ := dialCombination_returns (48 + extra) c.1 c.2.1 c.2.2 st
    exact ⟨testOpen t, by unfold tryCombination; rw [e, ht]; rfl⟩
  · rw [if_neg cs]; exact ⟨_, rfl⟩

/-- After a full rotation each disk is either at the dial position with the
sense of the rotation, or as before. -/
theorem rotateFull_disk_cases (d : Nat) (s : Model) (i : Fin 3) :
    ((rotateFull d s).currentDiskPosition.get i = s.currentDialPosition
        ∧ (rotateFull d s).rotationMode.get i = d)
    ∨ ((rotateFull d s).currentDiskPosition.get i = s.currentDiskPosition.get i
        ∧ (rotateFull d s).rotationMode.get i = s.rotationMode.get i) := by
  rw [rotateFull_eq]
  fin_cases i
  · cases diskMoving s s.currentDialPosition d 1 0 <;> simp [Arr3.get]
  · cases diskMoving s s.currentDialPosition d 1 1 <;> simp [Arr3.get]
  · cases diskMoving s s.currentDialPosition d 1 2 <;> simp [Arr3.get]

/-- After a direct rotation each disk is either at the target with the sense of
the rotation, or as before. -/
theorem rotateDial_disk_cases (p d : Nat) (s : Model) (i : Fin 3) :
    ((rotateDial p d s).currentDiskPosition.get i = p
        ∧ (rotateDial p d s).rotationMode.get i = d)
    ∨ ((rotateDial p d s).currentDiskPosition.get i = s.currentDiskPosition.get i
        ∧ (rotateDial p d s).rotationMode.get i = s.rotationMode.get i) := by
  rw [rotateDial_eq]
  fin_cases i
  · cases diskMoving s p d 0 0 <;> simp [Arr3.get]
  · cases diskMoving s p d 0 1 <;> simp [Arr3.get]
  · cases diskMoving s p d 0 2 <;> simp [Arr3.get]

/-- A full rotation keeps the dial position. -/
theorem rotateFull_dial (d : Nat) (s : Model) :
    (rotateFull d s).currentDialPosition = s.currentDialPosition := by
  rw [rotateFull_eq]

/-- A direct rotation stores its target as the dial position. -/
theorem rotateDial_dial (p d : Nat) (s : Model) :
    (rotateDial p d s).currentDialPosition = p := by
  rw [rotateDial_eq]

/-- Every state a run of console commands ends in is reachable. -/
theorem reachable_of_runCommands (fuel : Nat) (s0 : Model) :
    ∀ (inputs : List Char) (s1 s : Model), ReachableFrom s0 s1 →
      runCommands fuel inputs s1 = some s → ReachableFrom s0 s := by
  intro inputs
  induction inputs with
  | nil =>
    intro s1 s hr h
    simp only [runCommands, Option.some.injEq] at h
    rw [← h]; exact hr
  | cons c cs ih =>
    intro s1 s hr h
    simp only [runCommands] at h
    cases hl : loop fuel c s1 with
    | none => simp [hl] at h
    | some t =>
      exact ih t s (ReachableFrom.step fuel c s1 t hr hl) (by simpa [hl] using h)

/-- From boot on, a disk with a known position has a known direction. -/
theorem known_position_known_direction (s : Model) (hr : ReachableFrom boot s) :
    ∀ i : Fin 3, s.currentDiskPosition.get i ≠ 255 →
      (s.rotationMode.get i = 1 ∨ s.rotationMode.get i = 2) := by
  refine reachable_induction
    (fun s => ∀ i : Fin 3, s.currentDiskPosition.get i ≠ 255 →
      (s.rotationMode.get i = 1 ∨ s.rotationMode.get i = 2)) boot ?_ ?_ s hr
  · intro i h
    fin_cases i <;> simp [boot, Arr3.get] at h
  · intro fuel input s s1 hs hl
    refine loop_preserves
      (fun s => ∀ i : Fin 3, s.currentDiskPosition.get i ≠ 255 →
        (s.rotationMode.get i = 1 ∨ s.rotationMode.get i = 2)) ?_ ?_ ?_ ?_ fuel input s s1 hs hl
    · intro d t hd ht i hi
      rcases rotateFull_disk_cases d t i with ⟨_, hm⟩ | ⟨hp, hm⟩
      · rw [hm]; exact hd
      · rw [hm]; rw [hp] at hi; exact ht i hi
    · intro p d t _ hd ht i hi
      rcases rotateDial_disk_cases p d t i with ⟨_, hm⟩ | ⟨hp, hm⟩
      · rw [hm]; exact hd
      · rw [hm]; rw [hp] at hi; exact ht i hi
    · intro t ht
      exact ht
    · intro t ht
      exact ht

/-- Once the dial holds a position below 100 and every disk has a known
direction exactly when it has a known position, this stays so. -/
theorem calibrated_invariant (s0 s : Model) (hr : ReachableFrom s0 s)
    (h0 : s0.currentDialPosition < 100
      ∧ ∀ i : Fin 3, (s0.rotationMode.get i = 1 ∨ s0.rotationMode.get i = 2)
          ↔ s0.currentDiskPosition.get i ≠ 255) :
    s.currentDialPosition < 100
      ∧ ∀ i : Fin 3, (s.rotationMode.get i = 1 ∨ s.rotationMode.get i = 2)
          ↔ s.currentDiskPosition.get i ≠ 255 := by
  refine reachable_induction
    (fun s => s.currentDialPosition < 100
      ∧ ∀ i : Fin 3, (s.rotationMode.get i = 1 ∨ s.rotationMode.get i = 2)
          ↔ s.currentDiskPosition.get i ≠ 255) s0 h0 ?_ s hr
  intro fuel input s s1 hs hl
  refine loop_preserves
    (fun s => s.currentDialPosition < 100
      ∧ ∀ i : Fin 3, (s.rotationMode.get i = 1 ∨ s.rotationMode.get i = 2)
          ↔ s.currentDiskPosition.get i ≠ 255) ?_ ?_ ?_ ?_ fuel input s s1 hs hl
  · intro d t hd ht
    refine ⟨by rw [rotateFull_dial]; exact ht.1, ?_⟩
    intro i
    rcases rotateFull_disk_cases d t i with ⟨hp, hm⟩ | ⟨hp, hm⟩
    · rw [hm, hp]
      have := ht.1
      constructor
      · intro _; omega
      · intro _; exact hd
    · rw [hm, hp]; exact ht.2 i
  · intro p d t hp100 hd ht
    refine ⟨by rw [rotateDial_dial]; exact hp100, ?_⟩
    intro i
    rcases rotateDial_disk_cases p d t i with ⟨hp, hm⟩ | ⟨hp, hm⟩
    · rw [hm, hp]
      constructor
      · intro _; omega
      · intro _; exact hd
    · rw [hm, hp]; exact ht.2 i
  · intro t ht
    exact ⟨Nat.succ_pos 99, ht.2⟩
  · intro t ht
    exact ht

/-- C5 (the code at the failing input): after the commands `0`, `2`, `2`, `2`,
`1` all disks are at 0, disk 2 last moved clockwise and disk 0 last moved
counter-clockwise; `setDisk2 0` then returns the state unchanged, issuing no
rotation although disk 2 does not have the counter-clockwise direction.
Conversely, after `0`, `1`, `1`, `1`, `2` disk 2 is at 0 with direction
counter-clockwise, yet `setDisk2 0` issues a full and a direct rotation. -/
theorem setDisk2_tests_direction_of_disk0 :
    ReachableFrom boot (Model.mk 0 ⟨0, 0, 0⟩ ⟨2, 1, 1⟩ 0
      [StepperCall.setCurrentPosition 0, StepperCall.move 1600, StepperCall.move 1600,
        StepperCall.move 1600, StepperCall.move (-1600)])
    ∧ setDisk2 3 0 (Model.mk 0 ⟨0, 0, 0⟩ ⟨2, 1, 1⟩ 0
        [StepperCall.setCurrentPosition 0, StepperCall.move 1600, StepperCall.move 1600,
          StepperCall.move 1600, StepperCall.move (-1600)])
      = some (Model.mk 0 ⟨0, 0, 0⟩ ⟨2, 1, 1⟩ 0
        [StepperCall.setCurrentPosition 0, StepperCall.move 1600, StepperCall.move 1600,
          StepperCall.move 1600, StepperCall.move (-1600)])
    ∧ ReachableFrom boot (Model.mk 0 ⟨0, 0, 0⟩ ⟨1, 2, 2⟩ 0
      [StepperCall.setCurrentPosition 0, StepperCall.move (-1600), StepperCall.move (-1600),
        StepperCall.move (-1600), StepperCall.move 1600])
    ∧ setDisk2 3 0 (Model.mk 0 ⟨0, 0, 0⟩ ⟨1, 2, 2⟩ 0
        [StepperCall.setCurrentPosition 0, StepperCall.move (-1600), StepperCall.move (-1600),
          StepperCall.move (-1600), StepperCall.move 1600])
      = some (Model.mk 0 ⟨0, 0, 0⟩ ⟨2, 2, 2⟩ 0
        [StepperCall.setCurrentPosition 0, StepperCall.move (-1600), StepperCall.move (-1600),
          StepperCall.move (-1600), StepperCall.move 1600, StepperCall.move (-1600),
          StepperCall.move 0]) := by
  refine ⟨?_, by decide, ?_, by decide⟩
  · exact reachable_of_runCommands 0 boot ['0', '2', '2', '2', '1'] boot _
      ReachableFrom.start (by decide)
  · exact reachable_of_runCommands 0 boot ['0', '1', '1', '1', '2'] boot _
      ReachableFrom.start (by decide)

/-- C6 (counterexample): the command `1` given right after boot, before any
calibration, makes a full rotation with the dial at the sentinel 255; disk 0
then has direction counter-clockwise while its position is still 255. -/
theorem direction_invariant_counterexample :
    ReachableFrom boot
      (Model.mk 255 ⟨255, 255, 255⟩ ⟨2, 0, 0⟩ 0 [StepperCall.move (-1600)])
    ∧ ¬ (((Model.mk 255 ⟨255, 255, 255⟩ ⟨2, 0, 0⟩ 0
              [StepperCall.move (-1600)]).rotationMode.get 0 = 1
          ∨ (Model.mk 255 ⟨255, 255, 255⟩ ⟨2, 0, 0⟩ 0
              [StepperCall.move (-1600)]).rotationMode.get 0 = 2)
        ↔ (Model.mk 255 ⟨255, 255, 255⟩ ⟨2, 0, 0⟩ 0
              [StepperCall.move (-1600)]).currentDiskPosition.get 0 ≠ 255) :=
  ⟨ReachableFrom.step 0 '1' _ _ ReachableFrom.start (by decide), by decide⟩

/-- C6 (amended): in every state reachable from boot by console commands, a
disk whose last position is not 255 has last direction clockwise or
counter-clockwise; and in every state reachable after the dial has first been
calibrated to 0, a disk's last direction is clockwise or counter-clockwise if
and only if its last position is not 255. -/
theorem disk_direction_invariant (s : Model) (i : Fin 3) :
    (ReachableFrom boot s → s.currentDiskPosition.get i ≠ 255 →
        (s.rotationMode.get i = 1 ∨ s.rotationMode.get i = 2))
    ∧ (∀ s0, loop 0 '0' boot = some s0 → ReachableFrom s0 s →
        ((s.rotationMode.get i = 1 ∨ s.rotationMode.get i = 2)
          ↔ s.currentDiskPosition.get i ≠ 255)) := by
  refine ⟨fun hr => known_position_known_direction s hr i, ?_⟩
  intro s0 h0 hr
  have e : s0 = ⟨0, ⟨255, 255, 255⟩, ⟨0, 0, 0⟩, 0, [StepperCall.setCurrentPosition 0]⟩ := by
    have : loop 0 '0' boot
        = some ⟨0, ⟨255, 255, 255⟩, ⟨0, 0, 0⟩, 0, [StepperCall.setCurrentPosition 0]⟩ := by
      decide
    rw [this] at h0
    exact (Option.some.inj h0).symm
  refine (calibrated_invariant s0 s hr ?_).2 i
  subst e
  refine ⟨by decide, ?_⟩
  intro j
  fin_cases j <;> simp [Arr3.get]

/-- Witness for the amended C6: after `0` and `1` disk 0 is at 0 with direction
counter-clockwise, and disk 1 has neither a position nor a direction. -/
theorem disk_direction_invariant_witness :
    ReachableFrom (Model.mk 0 ⟨255, 255, 255⟩ ⟨0, 0, 0⟩ 0 [StepperCall.setCurrentPosition 0])
      (Model.mk 0 ⟨0, 255, 255⟩ ⟨2, 0, 0⟩ 0
        [StepperCall.setCurrentPosition 0, StepperCall.move (-1600)])
    ∧ (((Model.mk 0 ⟨0, 255, 255⟩ ⟨2, 0, 0⟩ 0
          [StepperCall.setCurrentPosition 0, StepperCall.move (-1600)]).rotationMode.get 1 = 1
        ∨ (Model.mk 0 ⟨0, 255, 255⟩ ⟨2, 0, 0⟩ 0
          [StepperCall.setCurrentPosition 0, StepperCall.move (-1600)]).rotationMode.get 1 = 2)
      ↔ (Model.mk 0 ⟨0, 255, 255⟩ ⟨2, 0, 0⟩ 0
          [StepperCall.setCurrentPosition 0,
            StepperCall.move (-1600)]).currentDiskPosition.get 1 ≠ 255) :=
  ⟨ReachableFrom.step 0 '1' _ _ ReachableFrom.start (by decide),
    (disk_direction_invariant
        (Model.mk 0 ⟨0, 255, 255⟩ ⟨2, 0, 0⟩ 0
          [StepperCall.setCurrentPosition 0, StepperCall.move (-1600)]) 1).2
      (Model.mk 0 ⟨255, 255, 255⟩ ⟨0, 0, 0⟩ 0 [StepperCall.setCurrentPosition 0])
      (by decide)
      (ReachableFrom.step 0 '1' _ _ ReachableFrom.start (by decide))⟩

/-- C11: with the dial at a position `p` below 100, `testOpen` is the clockwise
rotation to `(p + 5) mod 100` followed by the counter-clockwise rotation to `p`
itself, so the dial's recorded position after `testOpen` is the one before. -/
theorem testOpen_returns_dial (s : Model) (h : s.currentDialPosition < 100) :
    testOpen s
      = rotateDial s.currentDialPosition 2
          (rotateDial ((s.currentDialPosition + 5) % 100) 1 s)
    ∧ (testOpen s).currentDialPosition = s.currentDialPosition := by
  have e : ((s.currentDialPosition + 5) % 100 + 95) % 100 = s.currentDialPosition := by
    omega
  have t : testOpen s
      = rotateDial s.currentDialPosition 2
          (rotateDial ((s.currentDialPosition + 5) % 100) 1 s) := by
    unfold testOpen
    simp only [rotateDial_dial, e]
  exact ⟨t, by rw [t, rotateDial_dial]⟩

/-- Witness for C11: from the dial at 97 the probe goes clockwise to 2 and
counter-clockwise back to 97. -/
theorem testOpen_returns_dial_witness :
    testOpen (Model.mk 97 ⟨97, 0, 0⟩ ⟨2, 1, 2⟩ 0 [])
      = rotateDial 97 2 (rotateDial 2 1 (Model.mk 97 ⟨97, 0, 0⟩ ⟨2, 1, 2⟩ 0 []))
    ∧ (testOpen (Model.mk 97 ⟨97, 0, 0⟩ ⟨2, 1, 2⟩ 0 [])).currentDialPosition = 97 :=
  testOpen_returns_dial (Model.mk 97 ⟨97, 0, 0⟩ ⟨2, 1, 2⟩ 0 []) (by decide)

/-- C12: `rotateDial p d` followed by `rotateDial p0 d'`, where `p0` is the dial
position before the first rotation, leaves the dial's recorded position at
`p0`; this holds for every second direction `d'`, in particular the inverse
`3 - d` of `d`. -/
theorem rotateDial_round_trip (s : Model) (p d d' : Nat) :
    (rotateDial s.currentDialPosition d' (rotateDial p d s)).currentDialPosition
        = s.currentDialPosition
    ∧ (rotateDial s.currentDialPosition (3 - d) (rotateDial p d s)).currentDialPosition
        = s.currentDialPosition := by
  exact ⟨rotateDial_dial _ _ _, rotateDial_dial _ _ _⟩

/-- C14: when the driving start position `st`, the target `t` and the disk's
position `q` are all below 100 and `st` differs from `t`, the predictor returns
true exactly when the disk lies on the arc swept from `st` (exclusive) to `t`
(inclusive) in the direction of the rotation, or rests at `st` with last
direction equal to the direction; the full-rotation flag has no influence. -/
theorem willPickUpDisk_cyclic_arc (s : Model) (disk : Fin 3) (t d f : Nat)
    (hd : d = 1 ∨ d = 2) (hs : startPosition s disk < 100) (ht : t < 100)
    (hq : s.currentDiskPosition.get disk < 100) (hne : startPosition s disk ≠ t) :
    (willPickUpDisk s disk t d f = true ↔
      ((d = 2
          ∧ 0 < ((s.currentDiskPosition.get disk : Int) - startPosition s disk) % 100
          ∧ ((s.currentDiskPosition.get disk : Int) - startPosition s disk) % 100
              ≤ ((t : Int) - startPosition s disk) % 100)
        ∨ (d = 1
          ∧ 0 < ((startPosition s disk : Int) - s.currentDiskPosition.get disk) % 100
          ∧ ((startPosition s disk : Int) - s.currentDiskPosition.get disk) % 100
              ≤ ((startPosition s disk : Int) - t) % 100)
        ∨ (s.currentDiskPosition.get disk = startPosition s disk
          ∧ s.rotationMode.get disk = d)))
    ∧ (∀ f', willPickUpDisk s disk t d f' = willPickUpDisk s disk t d f) := by
  constructor
  · unfold willPickUpDisk
    generalize startPosition s disk = st at hs hne ⊢
    generalize s.currentDiskPosition.get disk = q at hq ⊢
    generalize s.rotationMode.get disk = m
    have e1 : ((q : Int) - st) % 100 = if st ≤ q then (q : Int) - st else q - st + 100 := by
      split <;> omega
    have e2 : ((t : Int) - st) % 100 = if st ≤ t then (t : Int) - st else t - st + 100 := by
      split <;> omega
    have e3 : ((st : Int) - q) % 100 = if q ≤ st then (st : Int) - q else st - q + 100 := by
      split <;> omega
    have e4 : ((st : Int) - t) % 100 = if t ≤ st then (st : Int) - t else st - t + 100 := by
      split <;> omega
    rw [e1, e2, e3, e4]
    rcases Nat.lt_or_gt_of_ne hne with h | h
    · rw [if_pos h, decide_eq_true_eq, if_pos (Nat.le_of_lt h), if_neg (Nat.not_le_of_lt h)]
      rcases hd with rfl | rfl <;> split_ifs <;> simp <;> omega
    · rw [if_neg (Nat.lt_asymm h), if_pos h, decide_eq_true_eq, if_neg (Nat.not_le_of_lt h),
        if_pos (Nat.le_of_lt h)]
      rcases hd with rfl | rfl <;> split_ifs <;> simp <;> omega
  · intro f'
    unfold willPickUpDisk
    rcases Nat.lt_or_gt_of_ne hne with h | h
    · rw [if_pos h, if_pos h]
    · rw [if_neg (Nat.lt_asymm h), if_pos h, if_neg (Nat.lt_asymm h), if_pos h]

/-- Witness for C14: disk 1 at 3, driven counter-clockwise from 95 to 10, lies
on the arc through 0 and is picked up. -/
theorem willPickUpDisk_cyclic_arc_witness :
    willPickUpDisk (Model.mk 95 ⟨95, 3, 50⟩ ⟨2, 1, 2⟩ 0 []) 1 10 2 0 = true :=
  (willPickUpDisk_cyclic_arc (Model.mk 95 ⟨95, 3, 50⟩ ⟨2, 1, 2⟩ 0 []) 1 10 2 0
    (Or.inr rfl) (by decide) (by decide) (by decide) (by decide)).1.mpr
    (Or.inl ⟨rfl, by decide, by decide⟩)

/-- C15: `rotateDial p d` stores `p` as the dial position; disk `i` gets
position `p` and direction `d` exactly when the predictor, asked on the state
before the rotation with flag 0, confirms every disk `j ≤ i`; every other disk
keeps its position and direction. -/
theorem rotateDial_effect (s : Model) (p d : Nat) (i : Fin 3) :
    (rotateDial p d s).currentDialPosition = p
    ∧ (rotateDial p d s).currentDiskPosition.get i
        = (if ∀ j : Fin 3, j ≤ i → willPickUpDisk s j p d 0 = true then p
            else s.currentDiskPosition.get i)
    ∧ (rotateDial p d s).rotationMode.get i
        = (if ∀ j : Fin 3, j ≤ i → willPickUpDisk s j p d 0 = true then d
            else s.rotationMode.get i) := by
  have h0 : (∀ j : Fin 3, j ≤ 0 → willPickUpDisk s j p d 0 = true)
      ↔ willPickUpDisk s 0 p d 0 = true := by
    constructor
    · intro h; exact h 0 (le_refl _)
    · intro h j hj
      fin_cases j
      · exact h
      · exact absurd hj (by decide)
      · exact absurd hj (by decide)
  have h1 : (∀ j : Fin 3, j ≤ 1 → willPickUpDisk s j p d 0 = true)
      ↔ (willPickUpDisk s 0 p d 0 = true ∧ willPickUpDisk s 1 p d 0 = true) := by
    constructor
    · intro h; exact ⟨h 0 (by decide), h 1 (by decide)⟩
    · intro h j hj
      fin_cases j
      · exact h.1
      · exact h.2
      · exact absurd hj (by decide)
  have h2 : (∀ j : Fin 3, j ≤ 2 → willPickUpDisk s j p d 0 = true)
      ↔ ((willPickUpDisk s 0 p d 0 = true ∧ willPickUpDisk s 1 p d 0 = true)
          ∧ willPickUpDisk s 2 p d 0 = true) := by
    constructor
    · intro h; exact ⟨⟨h 0 (by decide), h 1 (by decide)⟩, h 2 (by decide)⟩
    · intro h j _
      fin_cases j
      · exact h.1.1
      · exact h.1.2
      · exact h.2
  rw [rotateDial_eq]
  refine ⟨rfl, ?_, ?_⟩
  · fin_cases i
    · simp only [Fin.zero_eta, Arr3.get_zero, diskMoving_zero, h0]
    · simp only [Fin.mk_one, Arr3.get_one, diskMoving_one, Bool.and_eq_true, h1]
    · simp only [Fin.reduceFinMk, Arr3.get_two, diskMoving_two, Bool.and_eq_true, h2]
  · fin_cases i
    · simp only [Fin.zero_eta, Arr3.get_zero, diskMoving_zero, h0]
    · simp only [Fin.mk_one, Arr3.get_one, diskMoving_one, Bool.and_eq_true, h1]
    · simp only [Fin.reduceFinMk, Arr3.get_two, diskMoving_two, Bool.and_eq_true, h2]

/-- C16: when the dial and disk 0 are both at `c` below 100, disk 0 was last
moved counter-clockwise and disk 1 clockwise, `testOpen` leaves the dial
position, the three disk positions and the three disk directions as they were
(the clockwise leg moves no disk, the counter-clockwise leg brings disk 0 back
to `c` counter-clockwise and stops at disk 1). -/
theorem testOpen_keeps_position_model (s : Model) (c : Nat) (hc : c < 100)
    (hd : s.currentDialPosition = c) (hp : s.currentDiskPosition.get 0 = c)
    (hm0 : s.rotationMode.get 0 = 2) (hm1 : s.rotationMode.get 1 = 1) :
    (testOpen s).currentDialPosition = s.currentDialPosition
    ∧ (testOpen s).currentDiskPosition = s.currentDiskPosition
    ∧ (testOpen s).rotationMode = s.rotationMode := by
  obtain ⟨dial, ⟨p0, p1, p2⟩, ⟨m0, m1, m2⟩, off, log⟩ := s
  simp only [Arr3.get_zero, Arr3.get_one] at hd hp hm0 hm1
  subst hd hp hm0 hm1
  have e : ((p0 + 5) % 100 + 95) % 100 = p0 := by omega
  have w0 : ∀ l, willPickUpDisk ⟨p0, ⟨p0, p1, p2⟩, ⟨2, 1, m2⟩, off, l⟩ 0
      ((p0 + 5) % 100) 1 0 = false := by
    intro l
    simp [willPickUpDisk_eq_decide, startPosition_zero, startPosition_one, startPosition_two,
      drivingDiskRotationMode_zero, drivingDiskRotationMode_one, drivingDiskRotationMode_two,
      Arr3.get_zero, Arr3.get_one, Arr3.get_two]
    omega
  have r1 : rotateDial ((p0 + 5) % 100) 1 ⟨p0, ⟨p0, p1, p2⟩, ⟨2, 1, m2⟩, off, log⟩
      = ⟨(p0 + 5) % 100, ⟨p0, p1, p2⟩, ⟨2, 1, m2⟩, off,
          log ++ [StepperCall.move (rotateDialSteps p0 ((p0 + 5) % 100) 1)]⟩ := by
    rw [rotateDial_eq]
    simp [diskMoving_zero, diskMoving_one, diskMoving_two, w0]
  have v0 : ∀ l, willPickUpDisk ⟨(p0 + 5) % 100, ⟨p0, p1, p2⟩, ⟨2, 1, m2⟩, off, l⟩ 0
      p0 2 0 = true := by
    intro l
    simp [willPickUpDisk_eq_decide, startPosition_zero, startPosition_one, startPosition_two,
      drivingDiskRotationMode_zero, drivingDiskRotationMode_one, drivingDiskRotationMode_two,
      Arr3.get_zero, Arr3.get_one, Arr3.get_two]
    omega
  have v1 : ∀ l, willPickUpDisk ⟨(p0 + 5) % 100, ⟨p0, p1, p2⟩, ⟨2, 1, m2⟩, off, l⟩ 1
      p0 2 0 = false := by
    intro l
    simp [willPickUpDisk_eq_decide, startPosition_zero, startPosition_one, startPosition_two,
      drivingDiskRotationMode_zero, drivingDiskRotationMode_one, drivingDiskRotationMode_two,
      Arr3.get_zero, Arr3.get_one, Arr3.get_two]
  have t : testOpen ⟨p0, ⟨p0, p1, p2⟩, ⟨2, 1, m2⟩, off, log⟩
      = rotateDial p0 2 ⟨(p0 + 5) % 100, ⟨p0, p1, p2⟩, ⟨2, 1, m2⟩, off,
          log ++ [StepperCall.move (rotateDialSteps p0 ((p0 + 5) % 100) 1)]⟩ := by
    unfold testOpen
    simp only [r1, e]
  rw [t, rotateDial_eq]
  simp [diskMoving_zero, diskMoving_one, diskMoving_two, v0, v1]

/-- Witness for C16: the state `dialCombination 98 0 50` produces, probed. -/
theorem testOpen_keeps_position_model_witness :
    (testOpen (Model.mk 50 ⟨50, 0, 98⟩ ⟨2, 1, 2⟩ 0 [])).currentDialPosition = 50
    ∧ (testOpen (Model.mk 50 ⟨50, 0, 98⟩ ⟨2, 1, 2⟩ 0 [])).currentDiskPosition = ⟨50, 0, 98⟩
    ∧ (testOpen (Model.mk 50 ⟨50, 0, 98⟩ ⟨2, 1, 2⟩ 0 [])).rotationMode = ⟨2, 1, 2⟩ :=
  testOpen_keeps_position_model (Model.mk 50 ⟨50, 0, 98⟩ ⟨2, 1, 2⟩ 0 []) 50
    (by decide) rfl rfl rfl rfl

/-- C19 (counterexample): the states after the commands `0`, `1`, `3`, `4` and
after `0`, `1` agree on the dial position (0) and on all disk directions, and
differ in the recorded position of disk 0 (25 and 0); the predictor denies the
pickup of disk 0 for a counter-clockwise rotation to 10 in the first state and
confirms it in the second. -/
theorem disk0_position_counterexample :
    runCommands 0 ['0', '1', '3', '4'] boot
      = some (Model.mk 0 ⟨25, 255, 255⟩ ⟨2, 0, 0⟩ 0
          [StepperCall.setCurrentPosition 0, StepperCall.move (-1600),
            StepperCall.move (-400), StepperCall.move 400])
    ∧ runCommands 0 ['0', '1'] boot
      = some (Model.mk 0 ⟨0, 255, 255⟩ ⟨2, 0, 0⟩ 0
          [StepperCall.setCurrentPosition 0, StepperCall.move (-1600)])
    ∧ willPickUpDisk (Model.mk 0 ⟨25, 255, 255⟩ ⟨2, 0, 0⟩ 0
          [StepperCall.setCurrentPosition 0, StepperCall.move (-1600),
            StepperCall.move (-400), StepperCall.move 400]) 0 10 2 0 = false
    ∧ willPickUpDisk (Model.mk 0 ⟨0, 255, 255⟩ ⟨2, 0, 0⟩ 0
          [StepperCall.setCurrentPosition 0, StepperCall.move (-1600)]) 0 10 2 0 = true := by
  decide

/-- C19 (amended): for disk 0 the predictor takes the dial's current position
as the driving start position and compares the separately stored position of
disk 0 with it: the result is the same in any two states that agree on the dial
position, on the recorded position of disk 0 and on the direction of disk 0,
whatever is recorded for disks 1 and 2. -/
theorem willPickUpDisk_zero_reads (s s' : Model) (t d f : Nat)
    (hdial : s.currentDialPosition = s'.currentDialPosition)
    (hpos : s.currentDiskPosition.get 0 = s'.currentDiskPosition.get 0)
    (hmode : s.rotationMode.get 0 = s'.rotationMode.get 0) :
    startPosition s 0 = s.currentDialPosition
    ∧ willPickUpDisk s 0 t d f = willPickUpDisk s' 0 t d f := by
  refine ⟨rfl, ?_⟩
  unfold willPickUpDisk
  simp only [startPosition_zero, drivingDiskRotationMode_zero, hdial, hpos, hmode]

/-- Witness for the amended C19: two states that differ only in disks 1 and 2. -/
theorem willPickUpDisk_zero_reads_witness :
    startPosition (Model.mk 0 ⟨25, 255, 255⟩ ⟨2, 0, 0⟩ 0 []) 0 = 0
    ∧ willPickUpDisk (Model.mk 0 ⟨25, 255, 255⟩ ⟨2, 0, 0⟩ 0 []) 0 10 2 0
      = willPickUpDisk (Model.mk 0 ⟨25, 7, 9⟩ ⟨2, 1, 2⟩ 3 []) 0 10 2 0 :=
  willPickUpDisk_zero_reads (Model.mk 0 ⟨25, 255, 255⟩ ⟨2, 0, 0⟩ 0 [])
    (Model.mk 0 ⟨25, 7, 9⟩ ⟨2, 1, 2⟩ 3 []) 10 2 0 rfl rfl rfl

/-- The candidates the search hands to `dialCombination`, given fuel for 51
tests of each loop condition. -/
theorem searchCandidates_eq_spec (s extra : Nat) :
    searchCandidates (51 + extra) s = some (specCandidates s) := by
  unfold searchCandidates
  rw [searchLoops_eq_foldlM, foldlM_recordCandidate]
  rfl

/-- The components of a candidate. -/
theorem mem_specCandidates (s : Nat) (c : Nat × Nat × Nat) (h : c ∈ specCandidates s) :
    c.1 ∈ disk2Candidates s ∧ c.2.1 ∈ disk1Candidates ∧ c.2.2 ∈ disk0Candidates := by
  simp only [specCandidates, List.mem_flatMap, List.mem_map] at h
  obtain ⟨k, hk, j, hj, i, hi, rfl⟩ := h
  exact ⟨hk, hj, hi⟩

/-- Every start offset below 256 is reached by increments from boot. -/
theorem startOffset_reachable (n : Nat) :
    ReachableFrom boot { boot with startOffset := n % 256 } := by
  induction n with
  | zero => exact ReachableFrom.start
  | succ n ih =>
    refine ReachableFrom.step 0 '+' _ _ ih ?_
    have e : (n % 256 + 1) % 256 = (n + 1) % 256 := by omega
    simp [loop, e]

/-- C20 (counterexample): one increment command after boot makes the start
offset 1, and the search then starts with the candidate (1, 98, 0), whose
first component is odd. -/
theorem even_stepping_counterexample :
    ReachableFrom boot (Model.mk 255 ⟨255, 255, 255⟩ ⟨0, 0, 0⟩ 1 [])
    ∧ (searchCandidates 51 1).map (List.take 1) = some [(1, 98, 0)]
    ∧ ¬ (1 % 2 = 0) := by
  refine ⟨ReachableFrom.step 0 '+' _ _ ReachableFrom.start (by decide), ?_, by decide⟩
  rw [searchCandidates_eq_spec 1 0]
  decide

/-- C20 (amended): for every start offset `s`, every candidate `(k, j, i)` the
search generates has `j` and `i` even and `k` of the parity of `s`; the
increment command reaches every offset below 256, the odd ones included. -/
theorem search_candidate_parity (s extra : Nat) :
    (∃ l, searchCandidates (51 + extra) s = some l
      ∧ ∀ c ∈ l, c.1 % 2 = s % 2 ∧ c.2.1 % 2 = 0 ∧ c.2.2 % 2 = 0)
    ∧ ReachableFrom boot { boot with startOffset := s % 256 } := by
  refine ⟨⟨specCandidates s, searchCandidates_eq_spec s extra, ?_⟩, startOffset_reachable s⟩
  intro c hc
  obtain ⟨hk, hj, hi⟩ := mem_specCandidates s c hc
  simp only [disk2Candidates, disk1Candidates, disk0Candidates, List.mem_map,
    List.mem_range] at hk hj hi
  obtain ⟨n, _, hn⟩ := hk
  obtain ⟨m, hm, hm'⟩ := hj
  obtain ⟨r, _, hr⟩ := hi
  omega

/-- C13 (the code at the failing input): in the search started from the
calibrated boot state with offset 0, the 50th candidate is (0, 98, 98).  After
the first 49 candidates the model has the dial and disk 0 at 96, disk 1 at 98
and disk 2 at 0; `dialCombination 0 98 98` then skips `setDisk2` and
`setDisk1`, and the rotation of `setDisk0` to 98 flags disk 1 (it rests at the
target) and with it disk 2: the model ends with all three disks at 98, every
disk last moved counter-clockwise, so disk 2 is recorded at 98 and not at 0. -/
theorem search_misdials_candidate :
    (specCandidates 0).take 50 = (specCandidates 0).take 49 ++ [(0, 98, 98)]
    ∧ (((specCandidates 0).take 49).foldlM
          (fun st c => tryCombination 51 c.1 c.2.1 c.2.2 st)
          (Model.mk 0 ⟨255, 255, 255⟩ ⟨0, 0, 0⟩ 0 [StepperCall.setCurrentPosition 0])).map
        (fun st => (st.currentDialPosition, st.currentDiskPosition, st.rotationMode))
      = some (96, ⟨96, 98, 0⟩, ⟨2, 1, 2⟩)
    ∧ ((((specCandidates 0).take 49).foldlM
          (fun st c => tryCombination 51 c.1 c.2.1 c.2.2 st)
          (Model.mk 0 ⟨255, 255, 255⟩ ⟨0, 0, 0⟩ 0 [StepperCall.setCurrentPosition 0])).bind
        (dialCombination 51 0 98 98)).map
        (fun st => (st.currentDialPosition, st.currentDiskPosition, st.rotationMode))
      = some (98, ⟨98, 98, 98⟩, ⟨2, 2, 2⟩) := by
  refine ⟨by decide, by decide, by decide⟩

/-- The motor position after one more `move`. -/
theorem motorPosition_move (log : List StepperCall) (steps : Int) :
    motorPosition (log ++ [StepperCall.move steps]) = motorPosition log + steps := by
  simp [motorPosition, List.foldl_append]

/-- The motor position after `setCurrentPosition`. -/
theorem motorPosition_set (log : List StepperCall) (p : Int) :
    motorPosition (log ++ [StepperCall.setCurrentPosition p]) = p := by
  simp [motorPosition, List.foldl_append]

/-- The step count of a clockwise rotation between positions below 100. -/
theorem rotateDialSteps_cw (cur t : Nat) (hc : cur < 100) (ht : t < 100) :
    rotateDialSteps cur t 1 = (((cur : Int) - t) % 100) * 16 := by
  simp only [rotateDialSteps, microStepsFactor]
  rcases Nat.lt_trichotomy cur t with h | h | h
  · simp [h, Nat.lt_asymm h]; omega
  · simp [h]
  · simp [h, Nat.lt_asymm h]; omega

/-- The step count of a counter-clockwise rotation between positions below 100. -/
theorem rotateDialSteps_ccw (cur t : Nat) (hc : cur < 100) (ht : t < 100) :
    rotateDialSteps cur t 2 = -((((t : Int) - cur) % 100) * 16) := by
  simp only [rotateDialSteps, microStepsFactor]
  rcases Nat.lt_trichotomy cur t with h | h | h
  · simp [h, Nat.lt_asymm h]; omega
  · simp [h]
  · simp [h, Nat.lt_asymm h]; omega

/-- A full rotation keeps the dial below 100 and the motor congruent to it. -/
theorem motor_invariant_rotateFull (d : Nat) (s : Model) (hd : d = 1 ∨ d = 2)
    (h : s.currentDialPosition < 100
      ∧ motorPosition s.stepperLog % 1600 = (-(2 * 8) * (s.currentDialPosition : Int)) % 1600) :
    (rotateFull d s).currentDialPosition < 100
      ∧ motorPosition (rotateFull d s).stepperLog % 1600
          = (-(2 * 8) * ((rotateFull d s).currentDialPosition : Int)) % 1600 := by
  rw [rotateFull_eq]
  simp only [motorPosition_move]
  refine ⟨h.1, ?_⟩
  have h2 := h.2
  rcases hd with rfl | rfl <;> simp only [rotateFullSteps, microStepsFactor] <;> simp <;> omega

/-- A direct rotation to a target below 100 keeps the dial below 100 and the
motor congruent to it. -/
theorem motor_invariant_rotateDial (p d : Nat) (s : Model) (hp : p < 100)
    (hd : d = 1 ∨ d = 2)
    (h : s.currentDialPosition < 100
      ∧ motorPosition s.stepperLog % 1600 = (-(2 * 8) * (s.currentDialPosition : Int)) % 1600) :
    (rotateDial p d s).currentDialPosition < 100
      ∧ motorPosition (rotateDial p d s).stepperLog % 1600
          = (-(2 * 8) * ((rotateDial p d s).currentDialPosition : Int)) % 1600 := by
  rw [rotateDial_eq]
  simp only [motorPosition_move]
  refine ⟨hp, ?_⟩
  have h2 := h.2
  rcases hd with rfl | rfl
  · rw [rotateDialSteps_cw _ _ h.1 hp]; omega
  · rw [rotateDialSteps_ccw _ _ h.1 hp]; omega

/-- C17: after the dial has been calibrated to 0 (which zeroes the motor), in
every state reached through `rotateDial` calls with targets below 100 and
`rotateFull` calls in direction 1 or 2, or through further console commands,
the motor position is congruent to `-(2 * 8) * dial position` modulo 1600.
In particular `rotateFull` commands exactly +1600 or -1600 steps, and a
`rotateDial` round trip (there in direction `d`, back in the inverse direction
`3 - d`) commands a net displacement of 0. -/
theorem motor_tracks_dial (fuel : Nat) (s0 s1 s : Model)
    (h0 : loop fuel '0' s0 = some s1) (hr : RotationsFrom s1 s ∨ ReachableFrom s1 s) :
    motorPosition s.stepperLog % 1600 = (-(2 * 8) * (s.currentDialPosition : Int)) % 1600
    ∧ (∀ t : Model,
        (rotateFull 1 t).stepperLog = t.stepperLog ++ [StepperCall.move 1600]
        ∧ (rotateFull 2 t).stepperLog = t.stepperLog ++ [StepperCall.move (-1600)])
    ∧ (∀ (t : Model) (p d : Nat), t.currentDialPosition < 100 → p < 100 → (d = 1 ∨ d = 2) →
        motorPosition
            (rotateDial t.currentDialPosition (3 - d) (rotateDial p d t)).stepperLog
          = motorPosition t.stepperLog) := by
  have e1 : s1 = { s0 with
      stepperLog := s0.stepperLog ++ [StepperCall.setCurrentPosition 0]
      currentDialPosition := 0 } := by
    have : loop fuel '0' s0 = some { s0 with
        stepperLog := s0.stepperLog ++ [StepperCall.setCurrentPosition 0]
        currentDialPosition := 0 } := by
      simp [loop]
    rw [this] at h0
    exact (Option.some.inj h0).symm
  have base : s1.currentDialPosition < 100
      ∧ motorPosition s1.stepperLog % 1600
          = (-(2 * 8) * (s1.currentDialPosition : Int)) % 1600 := by
    rw [e1]
    simp only [motorPosition_set]
    exact ⟨Nat.succ_pos 99, by decide⟩
  refine ⟨?_, ?_, ?_⟩
  · rcases hr with hr | hr
    · have : s.currentDialPosition < 100
          ∧ motorPosition s.stepperLog % 1600
              = (-(2 * 8) * (s.currentDialPosition : Int)) % 1600 := by
        induction hr with
        | start => exact base
        | dial p d t _ hp hd ih => exact motor_invariant_rotateDial p d t hp hd ih
        | full d t _ hd ih => exact motor_invariant_rotateFull d t hd ih
      exact this.2
    · refine (reachable_induction
        (fun s => s.currentDialPosition < 100
          ∧ motorPosition s.stepperLog % 1600
              = (-(2 * 8) * (s.currentDialPosition : Int)) % 1600) s1 base ?_ s hr).2
      intro fuel' input t t1 ht hl
      refine loop_preserves
        (fun s => s.currentDialPosition < 100
          ∧ motorPosition s.stepperLog % 1600
              = (-(2 * 8) * (s.currentDialPosition : Int)) % 1600)
        (fun d u hd hu => motor_invariant_rotateFull d u hd hu)
        (fun p d u hp hd hu => motor_invariant_rotateDial p d u hp hd hu)
        ?_ ?_ fuel' input t t1 ht hl
      · intro u _
        simp only [motorPosition_set]
        exact ⟨Nat.succ_pos 99, by decide⟩
      · intro u hu
        exact hu
  · intro t
    rw [rotateFull_eq, rotateFull_eq]
    exact ⟨rfl, rfl⟩
  · intro t p d ht hp hd
    rw [rotateDial_eq, rotateDial_eq]
    simp only [motorPosition_move]
    rcases hd with rfl | rfl
    · rw [rotateDialSteps_cw _ _ ht hp, show 3 - 1 = 2 from rfl, rotateDialSteps_ccw _ _ hp ht]
      omega
    · rw [rotateDialSteps_ccw _ _ ht hp, show 3 - 2 = 1 from rfl, rotateDialSteps_cw _ _ hp ht]
      omega

/-- Witness for C17: calibrate at boot, then rotate clockwise to 10; the motor
stands at 1440, which is -160 modulo 1600. -/
theorem motor_tracks_dial_witness :
    motorPosition
        (rotateDial 10 1 (Model.mk 0 ⟨255, 255, 255⟩ ⟨0, 0, 0⟩ 0
          [StepperCall.setCurrentPosition 0])).stepperLog % 1600
      = (-(2 * 8) * (10 : Int)) % 1600
    ∧ motorPosition
        (rotateDial 10 1 (Model.mk 0 ⟨255, 255, 255⟩ ⟨0, 0, 0⟩ 0
          [StepperCall.setCurrentPosition 0])).stepperLog = 1440 :=
  ⟨(motor_tracks_dial 0 boot
      (Model.mk 0 ⟨255, 255, 255⟩ ⟨0, 0, 0⟩ 0 [StepperCall.setCurrentPosition 0])
      (rotateDial 10 1 (Model.mk 0 ⟨255, 255, 255⟩ ⟨0, 0, 0⟩ 0
        [StepperCall.setCurrentPosition 0]))
      (by decide)
      (Or.inl (RotationsFrom.dial 10 1 _ RotationsFrom.start (by decide) (Or.inl rfl)))).1,
    by decide⟩

/-- Forgetting the recorded targets commutes with sequencing. -/
theorem bind_map_fst {α τ : Type} (f' : α × τ → Option (α × τ)) (f : α → Option α)
    (hf : ∀ st, (f' st).map Prod.fst = f st.1) (x : Option (α × τ)) :
    (x.bind f').map Prod.fst = (x.map Prod.fst).bind f := by
  cases x with
  | none => rfl
  | some st => exact hf st

/-- Without the recorded targets `setDisk2Traced` is `setDisk2`. -/
theorem setDisk2Traced_fst (fuel position : Nat) (st : Model × List Nat) :
    (setDisk2Traced fuel position st).map Prod.fst = setDisk2 fuel position st.1 := by
  unfold setDisk2Traced setDisk2
  by_cases h : st.1.currentDiskPosition.get 2 ≠ position ∨ st.1.rotationMode.get 0 ≠ 2
  · rw [if_pos h, if_pos h]
    cases whileNotAligned (aligned2 position) 2 fuel st.1 <;> rfl
  · rw [if_neg h, if_neg h]; rfl

/-- Without the recorded targets `setDisk1Traced` is `setDisk1`. -/
theorem setDisk1Traced_fst (fuel position : Nat) (st : Model × List Nat) :
    (setDisk1Traced fuel position st).map Prod.fst = setDisk1 fuel position st.1 := by
  unfold setDisk1Traced setDisk1
  by_cases h : st.1.currentDiskPosition.get 1 ≠ position ∨ st.1.rotationMode.get 1 ≠ 1
  · rw [if_pos h, if_pos h]
    cases whileNotAligned (aligned1 position) 1 fuel st.1 <;> rfl
  · rw [if_neg h, if_neg h]; rfl

/-- Without the recorded targets `setDisk0Traced` is `setDisk0`. -/
theorem setDisk0Traced_fst (fuel position : Nat) (st : Model × List Nat) :
    (setDisk0Traced fuel position st).map Prod.fst = setDisk0 fuel position st.1 := by
  unfold setDisk0Traced setDisk0
  by_cases h : st.1.currentDiskPosition.get 0 ≠ position ∨ st.1.rotationMode.get 0 ≠ 2
  · rw [if_pos h, if_pos h]
    cases whileNotAligned (aligned0 position) 2 fuel st.1 <;> rfl
  · rw [if_neg h, if_neg h]; rfl

/-- Without the recorded targets `dialCombinationTraced` is `dialCombination`. -/
theorem dialCombinationTraced_fst (fuel k j i : Nat) (st : Model × List Nat) :
    (dialCombinationTraced fuel k j i st).map Prod.fst = dialCombination fuel k j i st.1 := by
  unfold dialCombinationTraced dialCombination
  rw [bind_map_fst _ _ (setDisk0Traced_fst fuel i), bind_map_fst _ _ (setDisk1Traced_fst fuel j),
    setDisk2Traced_fst]

/-- Without the recorded targets `testOpenTraced` is `testOpen`. -/
theorem testOpenTraced_fst (st : Model × List Nat) : (testOpenTraced st).1 = testOpen st.1 :=
  rfl

/-- Without the recorded targets `tryCombinationTraced` is `tryCombination`. -/
theorem tryCombinationTraced_fst (fuel k j i : Nat) (st : Model × List Nat) :
    (tryCombinationTraced fuel k j i st).map Prod.fst = tryCombination fuel k j i st.1 := by
  unfold tryCombinationTraced tryCombination
  rw [← dialCombinationTraced_fst]
  cases dialCombinationTraced fuel k j i st <;> rfl

/-- Forgetting the recorded targets commutes with a counting loop. -/
theorem forLoop_map_fst {α τ : Type} (next : Nat → Nat)
    (body' : Nat → α × τ → Option (α × τ)) (body : Nat → α → Option α)
    (hb : ∀ v st, (body' v st).map Prod.fst = body v st.1) :
    ∀ (fuel v : Nat) (st : α × τ),
      (forLoop next body' fuel v st).map Prod.fst = forLoop next body fuel v st.1 := by
  intro fuel
  induction fuel with
  | zero => intro v st; rfl
  | succ fuel ih =>
    intro v st
    by_cases hv : v < 100
    · simp only [forLoop, hv, if_true]
      rw [bind_map_fst _ _ (ih (next v)), hb]
    · simp only [forLoop, hv, if_false]
      rfl

/-- Without the recorded targets `loopTraced` is `loop`. -/
theorem loopTraced_fst (fuel : Nat) (input : Char) (st : Model × List Nat) :
    (loopTraced fuel input st).map Prod.fst = loop fuel input st.1 := by
  rw [loopTraced, loop]
  by_cases c1 : input = '1'
  · rw [if_pos c1, if_pos c1]; rfl
  rw [if_neg c1, if_neg c1]
  by_cases c2 : input = '2'
  · rw [if_pos c2, if_pos c2]; rfl
  rw [if_neg c2, if_neg c2]
  by_cases c3 : input = '3'
  · rw [if_pos c3, if_pos c3]; rfl
  rw [if_neg c3, if_neg c3]
  by_cases c4 : input = '4'
  · rw [if_pos c4, if_pos c4]; rfl
  rw [if_neg c4, if_neg c4]
  by_cases c5 : input = '5'
  · rw [if_pos c5, if_pos c5]; rfl
  rw [if_neg c5, if_neg c5]
  by_cases c6 : input = '6'
  · rw [if_pos c6, if_pos c6]; rfl
  rw [if_neg c6, if_neg c6]
  by_cases cp : input = 'p'
  · rw [if_pos cp, if_pos cp]; rfl
  rw [if_neg cp, if_neg cp]
  by_cases c0 : input = '0'
  · rw [if_pos c0, if_pos c0]; rfl
  rw [if_neg c0, if_neg c0]
  by_cases ci : input = '+'
  · rw [if_pos ci, if_pos ci]; rfl
  rw [if_neg ci, if_neg ci]
  by_cases co : input = 'o'
  · rw [if_pos co, if_pos co]; rfl
  rw [if_neg co, if_neg co]
  by_cases cs : input = 's'
  · rw [if_pos cs, if_pos cs]
    unfold searchLoops
    refine forLoop_map_fst plusTwo _ _ ?_ fuel st.1.startOffset st
    intro k st1
    refine forLoop_map_fst minusTwo _ _ ?_ fuel 98 st1
    intro j st2
    refine forLoop_map_fst plusTwo _ _ ?_ fuel 0 st2
    intro i st3
    exact tryCombinationTraced_fst fuel k j i st3
  · rw [if_neg cs, if_neg cs]; rfl

/-- Without the recorded targets `runCommandsTraced` is `runCommands`. -/
theorem runCommandsTraced_fst (fuel : Nat) :
    ∀ (inputs : List Char) (st : Model × List Nat),
      (runCommandsTraced fuel inputs st).map Prod.fst = runCommands fuel inputs st.1 := by
  intro inputs
  induction inputs with
  | nil => intro st; rfl
  | cons c cs ih =>
    intro st
    simp only [runCommandsTraced, runCommands]
    rw [bind_map_fst _ _ ih, loopTraced_fst]

/-- Recording a target below 100 keeps all recorded targets below 100. -/
theorem rotateDialTraced_targets (position direction : Nat) (st : Model × List Nat)
    (hp : position < 100) (h : ∀ p ∈ st.2, p < 100) :
    ∀ p ∈ (rotateDialTraced position direction st).2, p < 100 := by
  intro p hmem
  simp only [rotateDialTraced, List.mem_append, List.mem_singleton] at hmem
  rcases hmem with hmem | rfl
  · exact h p hmem
  · exact hp

/-- A setter body records only its own position. -/
theorem setterTraced_targets (cond : Model → Bool) (d position fuel : Nat)
    (st st1 : Model × List Nat) (hp : position < 100) (h : ∀ p ∈ st.2, p < 100)
    (hrun : (whileNotAligned cond d fuel st.1).map
      (fun t => rotateDialTraced position d (t, st.2)) = some st1) :
    ∀ p ∈ st1.2, p < 100 := by
  cases hw : whileNotAligned cond d fuel st.1 with
  | none => simp [hw] at hrun
  | some t =>
    have e : rotateDialTraced position d (t, st.2) = st1 := by simpa [hw] using hrun
    rw [← e]
    exact rotateDialTraced_targets position d (t, st.2) hp h

/-- `dialCombinationTraced` with targets below 100 records only targets below 100. -/
theorem dialCombinationTraced_targets (fuel k j i : Nat) (hk : k < 100) (hj : j < 100)
    (hi : i < 100) (st st1 : Model × List Nat) (h : ∀ p ∈ st.2, p < 100)
    (hrun : dialCombinationTraced fuel k j i st = some st1) : ∀ p ∈ st1.2, p < 100 := by
  unfold dialCombinationTraced at hrun
  cases h2 : setDisk2Traced fuel k st with
  | none => simp [h2] at hrun
  | some t2 =>
    cases h1 : setDisk1Traced fuel j t2 with
    | none => simp [h2, h1] at hrun
    | some t1 =>
      have h0 : setDisk0Traced fuel i t1 = some st1 := by simpa [h2, h1] using hrun
      have p2 : ∀ p ∈ t2.2, p < 100 := by
        unfold setDisk2Traced at h2
        split at h2
        · exact setterTraced_targets _ 2 k fuel st t2 hk h h2
        · simp only [Option.some.injEq] at h2
          rw [← h2]; exact h
      have p1 : ∀ p ∈ t1.2, p < 100 := by
        unfold setDisk1Traced at h1
        split at h1
        · exact setterTraced_targets _ 1 j fuel t2 t1 hj p2 h1
        · simp only [Option.some.injEq] at h1
          rw [← h1]; exact p2
      unfold setDisk0Traced at h0
      split at h0
      · exact setterTraced_targets _ 2 i fuel t1 st1 hi p1 h0
      · simp only [Option.some.injEq] at h0
        rw [← h0]; exact p1

/-- `testOpenTraced` records two targets below 100. -/
theorem testOpenTraced_targets (st : Model × List Nat) (h : ∀ p ∈ st.2, p < 100) :
    ∀ p ∈ (testOpenTraced st).2, p < 100 := by
  unfold testOpenTraced
  exact rotateDialTraced_targets _ 2 _ (Nat.mod_lt _ (Nat.succ_pos 99))
    (rotateDialTraced_targets _ 1 _ (Nat.mod_lt _ (Nat.succ_pos 99)) h)

/-- One pass through `loop` records only targets below 100. -/
theorem loopTraced_targets (fuel : Nat) (input : Char) (st st1 : Model × List Nat)
    (h : ∀ p ∈ st.2, p < 100) (hrun : loopTraced fuel input st = some st1) :
    ∀ p ∈ st1.2, p < 100 := by
  have hm : ∀ x : Nat, x % 100 < 100 := fun x => by omega
  rw [loopTraced] at hrun
  by_cases c1 : input = '1'
  · rw [if_pos c1, Option.some.injEq] at hrun; rw [← hrun]; exact h
  rw [if_neg c1] at hrun
  by_cases c2 : input = '2'
  · rw [if_pos c2, Option.some.injEq] at hrun; rw [← hrun]; exact h
  rw [if_neg c2] at hrun
  by_cases c3 : input = '3'
  · rw [if_pos c3, Option.some.injEq] at hrun; rw [← hrun]
    exact rotateDialTraced_targets _ 2 st (hm _) h
  rw [if_neg c3] at hrun
  by_cases c4 : input = '4'
  · rw [if_pos c4, Option.some.injEq] at hrun; rw [← hrun]
    exact rotateDialTraced_targets _ 1 st (hm _) h
  rw [if_neg c4] at hrun
  by_cases c5 : input = '5'
  · rw [if_pos c5, Option.some.injEq] at hrun; rw [← hrun]
    exact rotateDialTraced_targets _ 2 st (hm _) h
  rw [if_neg c5] at hrun
  by_cases c6 : input = '6'
  · rw [if_pos c6, Option.some.injEq] at hrun; rw [← hrun]
    exact rotateDialTraced_targets _ 1 st (hm _) h
  rw [if_neg c6] at hrun
  by_cases cp : input = 'p'
  · rw [if_pos cp, Option.some.injEq] at hrun; rw [← hrun]; exact h
  rw [if_neg cp] at hrun
  by_cases c0 : input = '0'
  · rw [if_pos c0, Option.some.injEq] at hrun; rw [← hrun]; exact h
  rw [if_neg c0] at hrun
  by_cases ci : input = '+'
  · rw [if_pos ci, Option.some.injEq] at hrun; rw [← hrun]; exact h
  rw [if_neg ci] at hrun
  by_cases co : input = 'o'
  · rw [if_pos co, Option.some.injEq] at hrun; rw [← hrun]
    exact testOpenTraced_targets st h
  rw [if_neg co] at hrun
  by_cases cs : input = 's'
  · rw [if_pos cs] at hrun
    unfold searchLoops at hrun
    refine forLoop_preserves (fun st : Model × List Nat => ∀ p ∈ st.2, p < 100) plusTwo _ ?_
      fuel st.1.startOffset st st1 h hrun
    intro k t t1 hk ht hbk
    refine forLoop_preserves (fun st : Model × List Nat => ∀ p ∈ st.2, p < 100) minusTwo _ ?_
      fuel 98 t t1 ht hbk
    intro j t2 t3 hj ht2 hbj
    refine forLoop_preserves (fun st : Model × List Nat => ∀ p ∈ st.2, p < 100) plusTwo _ ?_
      fuel 0 t2 t3 ht2 hbj
    intro i t4 t5 hi ht4 hbi
    unfold tryCombinationTraced at hbi
    cases hd : dialCombinationTraced fuel k j i t4 with
    | none => simp [hd] at hbi
    | some u =>
      have e : testOpenTraced u = t5 := by simpa [hd] using hbi
      rw [← e]
      exact testOpenTraced_targets u
        (dialCombinationTraced_targets fuel k j i hk hj hi t4 u ht4 hd)
  · rw [if_neg cs, Option.some.injEq] at hrun; rw [← hrun]; exact h

/-- A run of console commands records only targets below 100. -/
theorem runCommandsTraced_targets (fuel : Nat) :
    ∀ (inputs : List Char) (st st1 : Model × List Nat), (∀ p ∈ st.2, p < 100) →
      runCommandsTraced fuel inputs st = some st1 → ∀ p ∈ st1.2, p < 100 := by
  intro inputs
  induction inputs with
  | nil =>
    intro st st1 h hrun
    simp only [runCommandsTraced, Option.some.injEq] at hrun
    rw [← hrun]; exact h
  | cons c cs ih =>
    intro st st1 h hrun
    simp only [runCommandsTraced] at hrun
    cases hl : loopTraced fuel c st with
    | none => simp [hl] at hrun
    | some t =>
      exact ih t st1 (loopTraced_targets fuel c st t h hl) (by simpa [hl] using hrun)

/-- Every run of console commands returns, given fuel for 51 tests of each
search loop condition. -/
theorem runCommands_returns (extra : Nat) :
    ∀ (inputs : List Char) (s : Model), ∃ s1, runCommands (51 + extra) inputs s = some s1 := by
  intro inputs
  induction inputs with
  | nil => intro s; exact ⟨s, rfl⟩
  | cons c cs ih =>
    intro s
    obtain ⟨t, ht⟩ := loop_returns extra c s
    obtain ⟨t1, ht1⟩ := ih t
    exact ⟨t1, by simp only [runCommands]; rw [ht]; exact ht1⟩

/-- The dial position is the sentinel 255 or below 100 in every state reachable
from boot. -/
theorem dial_sentinel_or_valid (s : Model) (hr : ReachableFrom boot s) :
    s.currentDialPosition = 255 ∨ s.currentDialPosition < 100 := by
  refine reachable_induction
    (fun s => s.currentDialPosition = 255 ∨ s.currentDialPosition < 100) boot (Or.inl rfl)
    ?_ s hr
  intro fuel input t t1 ht hl
  refine loop_preserves (fun s => s.currentDialPosition = 255 ∨ s.currentDialPosition < 100)
    ?_ ?_ ?_ ?_ fuel input t t1 ht hl
  · intro d u _ hu
    rw [rotateFull_dial]; exact hu
  · intro p d u hp _ _
    rw [rotateDial_dial]; exact Or.inr hp
  · intro u _
    exact Or.inr (Nat.succ_pos 99)
  · intro u hu
    exact hu

/-- A dial position below 100 stays below 100. -/
theorem dial_stays_valid (s s1 : Model) (h : s.currentDialPosition < 100)
    (hr : ReachableFrom s s1) : s1.currentDialPosition < 100 := by
  refine reachable_induction (fun s => s.currentDialPosition < 100) s h ?_ s1 hr
  intro fuel input t t1 ht hl
  refine loop_preserves (fun s => s.currentDialPosition < 100)
    ?_ ?_ ?_ ?_ fuel input t t1 ht hl
  · intro d u _ hu
    rw [rotateFull_dial]; exact hu
  · intro p d u hp _ _
    rw [rotateDial_dial]; exact hp
  · intro u _
    exact Nat.succ_pos 99
  · intro u hu
    exact hu

/-- C18: for every sequence of console commands from boot, every target
position recorded at a call of `rotateDial` (by the console handlers, by
`testOpen`, by the setters run from the search) is below 100, and the run with
the record is the run without it; such a run returns, given fuel for 51 tests
of each search loop condition.  Consequently the dial's recorded position is
255 or below 100 in every reachable state, and once below 100 it stays there. -/
theorem rotateDial_targets_in_range (fuel : Nat) (inputs : List Char) :
    (∀ st : Model × List Nat, runCommandsTraced fuel inputs (boot, []) = some st →
        (∀ p ∈ st.2, p < 100) ∧ runCommands fuel inputs boot = some st.1)
    ∧ (∃ st, runCommandsTraced (51 + fuel) inputs (boot, []) = some st)
    ∧ (∀ s, ReachableFrom boot s → s.currentDialPosition = 255 ∨ s.currentDialPosition < 100)
    ∧ (∀ s s1, ReachableFrom boot s → s.currentDialPosition < 100 → ReachableFrom s s1 →
        s1.currentDialPosition < 100) := by
  refine ⟨?_, ?_, dial_sentinel_or_valid, fun s s1 _ h hr => dial_stays_valid s s1 h hr⟩
  · intro st hrun
    refine ⟨runCommandsTraced_targets fuel inputs (boot, []) st (by simp) hrun, ?_⟩
    rw [← runCommandsTraced_fst fuel inputs (boot, []), hrun]
    rfl
  · obtain ⟨s1, hs1⟩ := runCommands_returns fuel inputs boot
    have h := runCommandsTraced_fst (51 + fuel) inputs (boot, [])
    rw [hs1] at h
    cases hrun : runCommandsTraced (51 + fuel) inputs (boot, []) with
    | none => simp [hrun] at h
    | some st => exact ⟨st, rfl⟩

/-- Witness for C18: the commands `4` and `o` right after boot, with the dial
still at 255, hand `rotateDial` the targets 30, 35 and 30. -/
theorem rotateDial_targets_in_range_witness :
    (runCommandsTraced 0 ['4', 'o'] (boot, [])).map Prod.snd = some [30, 35, 30]
    ∧ ∀ st : Model × List Nat, runCommandsTraced 0 ['4', 'o'] (boot, []) = some st →
        (∀ p ∈ st.2, p < 100) ∧ runCommands 0 ['4', 'o'] boot = some st.1 :=
  ⟨by decide, (rotateDial_targets_in_range 0 ['4', 'o']).1⟩

end SafeAutoDialer
